import Mathlib

/-!
# Children's illustrator portfolio: interactive features

A shallow embedding of `src/script.js` and the properties of its form
validation, portfolio filter, lightbox and key-sequence matcher.

JavaScript strings are modelled by `String` and read as `List Char`; the
DOM is modelled by the pieces of state each handler reads and writes
(class lists, attributes, field values, registered listeners, pending
timers); exceptions are modelled by `Except JSError`.
-/

namespace Portfolio

/-! ## Regular expressions (the fragment used by `validateEmail`) -/

/-- The characters matched by `\s` in an ECMAScript regular expression:
WhiteSpace (TAB, VT, FF, SP, NBSP, ZWNBSP and the Unicode space separators)
and LineTerminator (LF, CR, LS, PS). -/
def isWhiteSpace (c : Char) : Bool :=
  let n := c.toNat
  n == 0x09 || n == 0x0A || n == 0x0B || n == 0x0C || n == 0x0D || n == 0x20 ||
  n == 0xA0 || n == 0x1680 || (0x2000 ≤ n && n ≤ 0x200A) ||
  n == 0x2028 || n == 0x2029 || n == 0x202F || n == 0x205F || n == 0x3000 ||
  n == 0xFEFF

/-- Regular expressions over characters: character classes, concatenation,
alternation and iteration. -/
inductive RegExp where
  | fail : RegExp
  | eps : RegExp
  | cls : (Char → Bool) → RegExp
  | seq : RegExp → RegExp → RegExp
  | alt : RegExp → RegExp → RegExp
  | star : RegExp → RegExp

namespace RegExp

/-- The quantifier `r+`: one or more repetitions of `r`. -/
def plus (r : RegExp) : RegExp := seq r (star r)

/-- Whether the expression matches the empty string. -/
def nullable : RegExp → Bool
  | fail => false
  | eps => true
  | cls _ => false
  | seq a b => nullable a && nullable b
  | alt a b => nullable a || nullable b
  | star _ => true

/-- Brzozowski derivative: what remains to be matched after reading `c`. -/
def deriv : RegExp → Char → RegExp
  | fail, _ => fail
  | eps, _ => fail
  | cls p, c => if p c then eps else fail
  | seq a b, c =>
      alt (seq (deriv a c) b) (if nullable a then deriv b c else fail)
  | alt a b, c => alt (deriv a c) (deriv b c)
  | star a, c => seq (deriv a c) (star a)

/-- Method `RegExp.prototype.test` for a pattern anchored as `^r$` (no flags): the
whole input has to be matched by `r`. -/
def test (r : RegExp) (s : List Char) : Bool :=
  nullable (s.foldl deriv r)

/-- The set of strings denoted by a regular expression. -/
def Matches : RegExp → List Char → Prop
  | fail, _ => False
  | eps, s => s = []
  | cls p, s => ∃ c, s = [c] ∧ p c = true
  | seq a b, s => ∃ u v, s = u ++ v ∧ Matches a u ∧ Matches b v
  | alt a b, s => Matches a s ∨ Matches b s
  | star a, s => ∃ L : List (List Char), s = L.flatten ∧ ∀ y ∈ L, Matches a y ∧ y ≠ []

end RegExp

/-- The class `[^\s@]`: any character that is neither whitespace nor `@`. -/
def notSpaceAt (c : Char) : Bool := !isWhiteSpace c && c != '@'

/-- The pattern of `emailRegex`, `/^[^\s@]+@[^\s@]+\.[^\s@]+$/`, without its
anchors (they are part of `RegExp.test`). -/
def emailRegex : RegExp :=
  .seq (.plus (.cls notSpaceAt))
    (.seq (.cls (fun c => c == '@'))
      (.seq (.plus (.cls notSpaceAt))
        (.seq (.cls (fun c => c == '.'))
          (.plus (.cls notSpaceAt)))))

/-- Function `validateEmail(email)`: `emailRegex.test(email)`. The pattern has no
`u` flag, so the engine reads UTF-16 code units; a character outside the Basic
Multilingual Plane is two surrogate units, both in `[^\s@]`, hence reading
the input character by character gives the same verdict. -/
def validateEmail (email : String) : Bool :=
  emailRegex.test email.toList

/-! ## Runtime pieces shared by the handlers -/

/-- Exceptions the script can raise. -/
inductive JSError where
  | typeError : String → JSError
  | referenceError : String → JSError
  deriving DecidableEq, Repr

/-- Method `classList.add(token)`: the token is appended unless already present. -/
def classListAdd (classList : List String) (token : String) : List String :=
  if token ∈ classList then classList else classList ++ [token]

/-- Method `classList.remove(token)`: every occurrence of the token is dropped. -/
def classListRemove (classList : List String) (token : String) : List String :=
  classList.filter (fun t => t != token)

/-- Method `classList.contains(token)`. -/
def classListContains (classList : List String) (token : String) : Bool :=
  decide (token ∈ classList)

/-- The toast element built by `showNotification`: its text and the
severity that goes into its class name and colours. -/
structure Notification where
  id : Nat
  message : String
  type : String
  animation : String
  deriving DecidableEq, Repr

/-- The function values handed to `setTimeout`. -/
inductive Callback where
  | dismissNotification : Nat → Callback
  | removeNotification : Nat → Callback
  | finishSubmit : String → Callback
  deriving DecidableEq, Repr

/-- A pending `setTimeout(callback, delay)`. -/
structure Timer where
  delay : Nat
  callback : Callback
  deriving DecidableEq, Repr

/-- What `showNotification` touches: the toasts appended to `document.body`
and the timer queue. `created` counts the toasts built so far and names the
next one. -/
structure Screen where
  notifications : List Notification
  timers : List Timer
  created : Nat
  deriving DecidableEq, Repr

/-- Function `showNotification(message, type)`: append a toast to the body and
schedule its dismissal after 4000 ms. -/
def showNotification (message type : String) (ui : Screen) : Screen :=
  { notifications :=
      ui.notifications ++ [⟨ui.created, message, type, "slideInRight 0.3s ease"⟩]
    timers := ui.timers ++ [⟨4000, .dismissNotification ui.created⟩]
    created := ui.created + 1 }

/-! ## Contact form -/

/-- A text control looked up by id: its current value, the value
`form.reset()` restores, and whether its form owner is `contactForm`
(`document.getElementById` finds the control wherever it sits, also outside
the form). -/
structure Field where
  value : String
  defaultValue : String
  owned : Bool
  deriving DecidableEq, Repr

/-- The effect of `contactForm.reset()` on one control: a control owned by the
form goes back to its default value, any other control is not touched. -/
def Field.reset (field : Field) : Field :=
  if field.owned then { field with value := field.defaultValue } else field

/-- The `.btn-submit` control. -/
structure SubmitBtn where
  textContent : String
  disabled : Bool
  deriving DecidableEq, Repr

/-- The state the submit handler works on: the four fields looked up by id,
the submit control found by `contactForm.querySelector('.btn-submit')`
(`none` when the form has no such element), and the screen. -/
structure FormPage where
  name : Field
  email : Field
  subject : Field
  message : Field
  submitBtn : Option SubmitBtn
  ui : Screen
  deriving DecidableEq, Repr

/-- Method `contactForm.reset()`: every control whose form owner is the form
goes back to its default value. -/
def FormPage.reset (st : FormPage) : FormPage :=
  { st with
    name := st.name.reset
    email := st.email.reset
    subject := st.subject.reset
    message := st.message.reset }

/-- The listener `initializeFormSubmission` registers for `submit`. A
JavaScript string is falsy exactly when it is empty. -/
def submitHandler (st : FormPage) : Except JSError FormPage :=
  let name := st.name.value
  let email := st.email.value
  let subject := st.subject.value
  let message := st.message.value
  if name == "" || email == "" || subject == "" || message == "" then
    .ok { st with ui := showNotification "Please fill in all fields" "error" st.ui }
  else if !validateEmail email then
    .ok { st with ui := showNotification "Please enter a valid email" "error" st.ui }
  else
    match st.submitBtn with
    | none => .error (.typeError "Cannot read properties of null (reading 'textContent')")
    | some submitBtn =>
      let originalText := submitBtn.textContent
      .ok { st with
            submitBtn := some { textContent := "Sending...", disabled := true }
            ui := { st.ui with
                    timers := st.ui.timers ++ [⟨1500, .finishSubmit originalText⟩] } }

/-- Running a timer callback on the form page. `finishSubmit originalText` is
the arrow function of the submit handler; the other two are the nested
timeouts of `showNotification`. -/
def runCallback (cb : Callback) (st : FormPage) : FormPage :=
  match cb with
  | .finishSubmit originalText =>
    let st := { st with
      ui := showNotification "Message sent successfully! I'll get back to you soon. 🎉"
        "success" st.ui }
    let st := st.reset
    { st with
      submitBtn := st.submitBtn.map fun _ => { textContent := originalText, disabled := false } }
  | .dismissNotification n =>
    { st with
      ui := { st.ui with
        notifications := st.ui.notifications.map fun t =>
          if t.id = n then { t with animation := "slideInLeft 0.3s ease reverse" } else t
        timers := st.ui.timers ++ [⟨300, .removeNotification n⟩] } }
  | .removeNotification n =>
    { st with
      ui := { st.ui with notifications := st.ui.notifications.filter fun t => t.id != n } }

/-- The timer at position `i` of the queue elapses: it leaves the queue and
its callback runs. -/
def fireTimer (st : FormPage) (i : Nat) : FormPage :=
  match st.ui.timers[i]? with
  | none => st
  | some t => runCallback t.callback { st with ui := { st.ui with timers := st.ui.timers.eraseIdx i } }

/-- Whether a pending timer is the delayed completion of a submission. -/
def Timer.isSubmission (t : Timer) : Bool :=
  match t.callback with
  | .finishSubmit _ => true
  | _ => false

/-! ## Portfolio filter -/

/-- A `.filter-btn` element: its `data-filter` attribute (`none` when the
attribute is absent, where `getAttribute` returns `null`) and its classes. -/
structure FilterBtn where
  dataFilter : Option String
  classList : List String
  deriving DecidableEq, Repr

/-- A `.portfolio-item` element: its `data-category` attribute, its classes
and its `style.animation`. -/
structure PortfolioItem where
  dataCategory : Option String
  classList : List String
  animation : String
  deriving DecidableEq, Repr

/-- The two node lists captured by `initializePortfolioFilters`. -/
structure Gallery where
  filterButtons : List FilterBtn
  portfolioItems : List PortfolioItem
  deriving DecidableEq, Repr

/-- The click listener of the `i`-th filter button (`this` is that button).
A position outside the node list has no listener. -/
def filterClick (g : Gallery) (i : Nat) : Gallery :=
  match g.filterButtons[i]? with
  | none => g
  | some this =>
    let filterValue := this.dataFilter
    let cleared := g.filterButtons.map fun btn =>
      { btn with classList := classListRemove btn.classList "active" }
    let buttons := cleared.modify
      (fun btn => { btn with classList := classListAdd btn.classList "active" }) i
    let items := g.portfolioItems.map fun item =>
      let itemCategory := item.dataCategory
      if filterValue == some "all" || itemCategory == filterValue then
        { item with
          classList := classListRemove item.classList "hidden"
          animation := "fadeInScale 0.6s ease forwards" }
      else
        { item with classList := classListAdd item.classList "hidden" }
    { filterButtons := buttons, portfolioItems := items }

/-- Whether a portfolio item carries the `hidden` class. -/
def PortfolioItem.hidden (item : PortfolioItem) : Bool :=
  classListContains item.classList "hidden"

/-- Whether a filter button carries the `active` class. -/
def FilterBtn.active (btn : FilterBtn) : Bool :=
  classListContains btn.classList "active"

/-- A gallery with the filters `all`, `books`, `cards` (the first one active in
the markup) and three items, used to evaluate the handler. -/
def sampleGallery : Gallery :=
  { filterButtons :=
      [⟨some "all", ["active"]⟩, ⟨some "books", []⟩, ⟨some "cards", []⟩]
    portfolioItems :=
      [⟨some "books", [], ""⟩, ⟨some "cards", ["hidden"], ""⟩, ⟨some "books", ["hidden"], ""⟩] }

/-! ## Easter egg -/

/-- The constant `secretCode`. -/
def secretCode : List String := ["c", "r", "e", "a", "t", "i", "v", "e"]

/-- The state of `initializeEasterEgg`: the closure variable `keySequence`,
the `style.animation` of `.hero-title` (`none` when the page has no such
element), the screen, and `eggCalls`, a counter of the calls of
`triggerEasterEgg` kept for the statements below. -/
structure EggState where
  keySequence : List String
  heroTitle : Option String
  ui : Screen
  eggCalls : Nat
  deriving DecidableEq, Repr

/-- Function `triggerEasterEgg()`: animate the title when there is one and show the
success toast. -/
def triggerEasterEgg (st : EggState) : EggState :=
  { st with
    heroTitle := st.heroTitle.map fun _ => "rainbow-text 2s ease infinite"
    ui := showNotification "🎨 You found the creative magic! Great eye for details! ✨"
      "success" st.ui
    eggCalls := st.eggCalls + 1 }

/-- Value of `keySequence` after `push` and the conditional `shift` of the keydown
listener. -/
def pushKey (keySequence : List String) (key : String) : List String :=
  let pushed := keySequence ++ [key]
  if pushed.length > secretCode.length then pushed.tail else pushed

/-- The keydown listener of `initializeEasterEgg`. `toLowerCase` stands for
`String.prototype.toLowerCase`, the host's Unicode lower-casing. -/
def easterEggKeydown (toLowerCase : String → String) (st : EggState) (key : String) :
    EggState :=
  let keySequence := pushKey st.keySequence (toLowerCase key)
  if String.join keySequence == String.join secretCode then
    { triggerEasterEgg st with keySequence := [] }
  else
    { st with keySequence := keySequence }

/-- A run of keydown events, in order. -/
def easterEggRun (toLowerCase : String → String) (st : EggState) (keys : List String) :
    EggState :=
  keys.foldl (easterEggKeydown toLowerCase) st

/-- The state right after `initializeEasterEgg()`: an empty key buffer. -/
def eggInit (heroTitle : Option String) (ui : Screen) : EggState :=
  { keySequence := [], heroTitle := heroTitle, ui := ui, eggCalls := 0 }

/-- Whether the keydown listener called `triggerEasterEgg` on this key. -/
def easterEggFired (toLowerCase : String → String) (st : EggState) (key : String) : Bool :=
  (easterEggKeydown toLowerCase st key).eggCalls != st.eggCalls

/-- For each key of a run, in order, whether `triggerEasterEgg` was called on
it. -/
def easterEggTrace (toLowerCase : String → String) (st : EggState) : List String → List Bool
  | [] => []
  | key :: keys =>
    easterEggFired toLowerCase st key ::
      easterEggTrace toLowerCase (easterEggKeydown toLowerCase st key) keys

/-- Lower-casing of the letters `A`–`Z`, on which `toLowerCase` agrees with
it; used to evaluate the listener on concrete ASCII keys. -/
def asciiToLowerCase (s : String) : String :=
  ⟨s.data.map Char.toLower⟩

/-! ## Page initialisation -/

/-- What the host environment provides to the script. -/
structure Host where
  hasIntersectionObserver : Bool
  deriving DecidableEq, Repr

/-- The initialisers defined by the script. -/
inductive Feature where
  | navigation
  | scrollAnimations
  | parallax
  | portfolioFilters
  | formSubmission
  | smoothScroll
  | buttonAnimations
  | lazyLoading
  deriving DecidableEq, Repr

/-- An element handed to the reveal observer: its classes and whether the
observer is watching it. -/
structure RevealTarget where
  classList : List String
  observed : Bool
  deriving DecidableEq, Repr

/-- The part of the page the initialisers act on: the elements collected in
`elementsToObserve`, and the initialisers that have run to completion (each
one registers its listeners as its last effect). -/
structure Page where
  revealTargets : List RevealTarget
  installed : List Feature
  deriving DecidableEq, Repr

/-- Function `initializeNavigation()`: looks up its elements and registers listeners;
the lookups are guarded (`if (hamburger)`), nothing is dereferenced here. -/
def initializeNavigation (page : Page) : Except JSError Page :=
  .ok { page with installed := page.installed ++ [.navigation] }

/-- Function `initializeScrollAnimations()`: `new IntersectionObserver(...)` is
evaluated first and without a guard; with the identifier unbound it raises a
`ReferenceError`. Otherwise every collected element gets the class `reveal`
and is observed. -/
def initializeScrollAnimations (host : Host) (page : Page) : Except JSError Page :=
  if host.hasIntersectionObserver then
    .ok { revealTargets := page.revealTargets.map fun element =>
            { classList := classListAdd element.classList "reveal", observed := true }
          installed := page.installed ++ [.scrollAnimations] }
  else
    .error (.referenceError "IntersectionObserver is not defined")

/-- Function `initializeParallax()`: registers two document listeners. -/
def initializeParallax (page : Page) : Except JSError Page :=
  .ok { page with installed := page.installed ++ [.parallax] }

/-- Function `initializePortfolioFilters()`: registers the filter click listeners. -/
def initializePortfolioFilters (page : Page) : Except JSError Page :=
  .ok { page with installed := page.installed ++ [.portfolioFilters] }

/-- Function `initializeFormSubmission()`: registers the submit listener when the form
exists. -/
def initializeFormSubmission (page : Page) : Except JSError Page :=
  .ok { page with installed := page.installed ++ [.formSubmission] }

/-- Function `initializeSmoothScroll()`: registers click listeners on links. -/
def initializeSmoothScroll (page : Page) : Except JSError Page :=
  .ok { page with installed := page.installed ++ [.smoothScroll] }

/-- Function `initializeButtonAnimations()`: registers the button listeners and the
click listener of every portfolio item that opens the lightbox. -/
def initializeButtonAnimations (page : Page) : Except JSError Page :=
  .ok { page with installed := page.installed ++ [.buttonAnimations] }

/-- Function `initializeLazyLoading()`: the whole body sits under
`if ('IntersectionObserver' in window)`. -/
def initializeLazyLoading (host : Host) (page : Page) : Except JSError Page :=
  if host.hasIntersectionObserver then
    .ok { page with installed := page.installed ++ [.lazyLoading] }
  else
    .ok page

/-- The `DOMContentLoaded` listener: the seven initialisers in sequence; an
exception in one of them ends the listener. -/
def domContentLoaded (host : Host) (page : Page) : Except JSError Page := do
  let page ← initializeNavigation page
  let page ← initializeScrollAnimations host page
  let page ← initializeParallax page
  let page ← initializePortfolioFilters page
  let page ← initializeFormSubmission page
  let page ← initializeSmoothScroll page
  initializeButtonAnimations page

/-! ## Lightbox -/

/-- Identity of a DOM element. -/
abbrev Elem := Nat

/-- The state the lightbox code works on: the element with id `lightbox`
(`none` when absent), the first `.lightbox-close` inside it, the portfolio
items carrying the click listener of `initializeButtonAnimations`, the class
list of the lightbox, and the listeners `openLightbox` has registered so far.
`closeLightbox` is one function value, so registering it again on the close
control changes nothing; the backdrop listener is a fresh function at every
call, so those accumulate. -/
structure LightboxPage where
  lightbox : Option Elem
  closeBtn : Option Elem
  portfolioItems : List Elem
  classList : List String
  closeBtnListener : Bool
  backdropListeners : Nat
  deriving DecidableEq, Repr

/-- Function `openLightbox()`: mark the lightbox active, register `closeLightbox`
on the close control when there is one, and register one more backdrop
listener on the lightbox. -/
def openLightbox (page : LightboxPage) : LightboxPage :=
  match page.lightbox with
  | none => page
  | some _ =>
    { page with
      classList := classListAdd page.classList "active"
      closeBtnListener := page.closeBtnListener || page.closeBtn.isSome
      backdropListeners := page.backdropListeners + 1 }

/-- Function `closeLightbox()`: remove `active` from the lightbox when it exists. -/
def closeLightbox (page : LightboxPage) : LightboxPage :=
  match page.lightbox with
  | none => page
  | some _ => { page with classList := classListRemove page.classList "active" }

/-- The document keydown listener that closes the lightbox on `Escape`. -/
def lightboxKeydown (page : LightboxPage) (key : String) : LightboxPage :=
  if key == "Escape" then closeLightbox page else page

/-- One backdrop listener: `if (e.target === lightbox) closeLightbox()`. -/
def backdropListener (target : Elem) (page : LightboxPage) : LightboxPage :=
  if page.lightbox == some target then closeLightbox page else page

/-- The click listeners of element `e` run for a click on `target`. The
listeners are those registered when the event reaches `e`, in registration
order: the portfolio-item listener (registered at `DOMContentLoaded`), then
what `openLightbox` registered. -/
def clickAt (target : Elem) (page : LightboxPage) (e : Elem) : LightboxPage :=
  let onItem := decide (e ∈ page.portfolioItems)
  let onClose := page.closeBtnListener && page.closeBtn == some e
  let onBackdrop := if page.lightbox == some e then page.backdropListeners else 0
  let page := if onItem then openLightbox page else page
  let page := if onClose then closeLightbox page else page
  Nat.iterate (backdropListener target) onBackdrop page

/-- A click event: `path` is its propagation path, the target first and then
its ancestors outwards; the event bubbles along it. -/
def lightboxClick (page : LightboxPage) (path : List Elem) : LightboxPage :=
  match path with
  | [] => page
  | target :: _ => path.foldl (clickAt target) page

/-- The events that reach the lightbox code. -/
inductive LightboxEvent where
  | keydown : String → LightboxEvent
  | click : List Elem → LightboxEvent
  deriving DecidableEq, Repr

/-- One event. -/
def lightboxStep (page : LightboxPage) : LightboxEvent → LightboxPage
  | .keydown key => lightboxKeydown page key
  | .click path => lightboxClick page path

/-- A history of events. -/
def lightboxRun (page : LightboxPage) (events : List LightboxEvent) : LightboxPage :=
  events.foldl lightboxStep page

/-- The page as loaded: nothing registered by `openLightbox` yet. -/
def lightboxLoaded (lightbox closeBtn : Option Elem) (portfolioItems : List Elem)
    (classList : List String) : LightboxPage :=
  { lightbox := lightbox, closeBtn := closeBtn, portfolioItems := portfolioItems
    classList := classList, closeBtnListener := false, backdropListeners := 0 }

/-- Whether the lightbox is open: `active` is among its classes. -/
def LightboxPage.isOpen (page : LightboxPage) : Bool :=
  classListContains page.classList "active"

/-- The lightbox has its listeners whenever it is open. -/
def LightboxPage.Wired (page : LightboxPage) : Prop :=
  page.isOpen = true →
    0 < page.backdropListeners ∧ (page.closeBtn.isSome = true → page.closeBtnListener = true)

/-- Two states of the same document. -/
def LightboxPage.SameDoc (p q : LightboxPage) : Prop :=
  q.lightbox = p.lightbox ∧ q.closeBtn = p.closeBtn ∧ q.portfolioItems = p.portfolioItems

/-! ## Reveal tracker -/

/-- An `IntersectionObserverEntry` as the callback reads it: the position of
`entry.target` in `elementsToObserve` and `entry.isIntersecting`. -/
structure ObserverEntry where
  target : Nat
  isIntersecting : Bool
  deriving DecidableEq, Repr

/-- What the callback does to the target of an intersecting entry:
`classList.add('active')` and `observer.unobserve(target)`. -/
def RevealTarget.reveal (element : RevealTarget) : RevealTarget :=
  { classList := classListAdd element.classList "active", observed := false }

/-- The body of `entries.forEach` in the observer callback of
`initializeScrollAnimations`. -/
def revealEntry (page : Page) (entry : ObserverEntry) : Page :=
  if entry.isIntersecting then
    { page with revealTargets := page.revealTargets.modify RevealTarget.reveal entry.target }
  else
    page

/-- The observer callback: one call with a batch of entries. -/
def observerCallback (page : Page) (entries : List ObserverEntry) : Page :=
  entries.foldl revealEntry page

/-- A sequence of calls of the observer callback. -/
def observerRun (page : Page) (callbacks : List (List ObserverEntry)) : Page :=
  callbacks.foldl observerCallback page

/-- Whether an element carries the revealed mark, the class `active`. -/
def RevealTarget.revealed (element : RevealTarget) : Bool :=
  classListContains element.classList "active"

/-- Whether some entry of the callbacks reports element `k` as intersecting. -/
def intersected (k : Nat) (callbacks : List (List ObserverEntry)) : Bool :=
  callbacks.any fun entries => entries.any fun entry => entry.isIntersecting && entry.target == k

/-! ## Navigation -/

/-- Method `classList.toggle(token)`: remove the token when present, add it
otherwise. -/
def classListToggle (classList : List String) (token : String) : List String :=
  if classListContains classList token then classListRemove classList token
  else classListAdd classList token

/-- The two elements `initializeNavigation` looks up with `querySelector`,
each given by its class list, `none` when the document has no such element. -/
structure NavPage where
  hamburger : Option (List String)
  navMenu : Option (List String)
  deriving DecidableEq, Repr

/-- The outcome of a listener: the page it leaves behind and the exception it
ended with, if any (effects made before a `throw` stay). -/
structure Outcome where
  page : NavPage
  thrown : Option JSError
  deriving DecidableEq, Repr

/-- The click listener of the hamburger, registered under `if (hamburger)`:
it toggles `active` on the hamburger, then reads `navMenu.classList` with no
guard. Without a hamburger there is no listener. -/
def hamburgerClick (page : NavPage) : Outcome :=
  match page.hamburger with
  | none => { page := page, thrown := none }
  | some hamburger =>
    let page := { page with hamburger := some (classListToggle hamburger "active") }
    match page.navMenu with
    | none =>
      { page := page
        thrown := some (.typeError "Cannot read properties of null (reading 'classList')") }
    | some navMenu =>
      { page := { page with navMenu := some (classListToggle navMenu "active") }
        thrown := none }

/-- The click listener of a `.nav-link`: `hamburger?.classList.remove('active')`
and `navMenu?.classList.remove('active')`. -/
def navLinkClick (page : NavPage) : Outcome :=
  { page :=
      { hamburger := page.hamburger.map fun cl => classListRemove cl "active"
        navMenu := page.navMenu.map fun cl => classListRemove cl "active" }
    thrown := none }

/-- The target of a click as the document listener reads it: an element, with
the answer of `event.target.closest('.nav-container')` (found or `null`), or
a target that is not an element and has no `closest` method, such as the
document itself. -/
inductive ClickTarget where
  | element (isClickInsideNav : Bool)
  | other
  deriving DecidableEq, Repr

/-- The document click listener. It calls `event.target.closest` first, which
throws on a target without that method. -/
def documentClick (page : NavPage) (target : ClickTarget) : Outcome :=
  match target with
  | .other =>
    { page := page, thrown := some (.typeError "event.target.closest is not a function") }
  | .element isClickInsideNav =>
    let hamburgerActive :=
      match page.hamburger with
      | none => false
      | some cl => classListContains cl "active"
    if !isClickInsideNav && hamburgerActive then
      { page :=
          { hamburger := page.hamburger.map fun cl => classListRemove cl "active"
            navMenu := page.navMenu.map fun cl => classListRemove cl "active" }
        thrown := none }
    else
      { page := page, thrown := none }

/-! # Theorems -/

/-! ### Correctness of the matcher -/

namespace RegExp

theorem nullable_iff (r : RegExp) : nullable r = true ↔ Matches r [] := by
  induction r with
  | fail => simp [nullable, Matches]
  | eps => simp [nullable, Matches]
  | cls p => simp [nullable, Matches]
  | seq a b iha ihb =>
    simp only [nullable, Matches, Bool.and_eq_true, iha, ihb]
    constructor
    · rintro ⟨ha, hb⟩
      exact ⟨[], [], rfl, ha, hb⟩
    · rintro ⟨u, v, huv, ha, hb⟩
      have h := List.append_eq_nil.mp huv.symm
      rw [h.1] at ha
      rw [h.2] at hb
      exact ⟨ha, hb⟩
  | alt a b iha ihb => simp [nullable, Matches, iha, ihb]
  | star a _ =>
    simp only [nullable, Matches, true_iff]
    exact ⟨[], rfl, by simp⟩

theorem matches_star_cons (a : RegExp) (c : Char) (s : List Char) :
    Matches (star a) (c :: s) ↔
      ∃ u v, s = u ++ v ∧ Matches a (c :: u) ∧ Matches (star a) v := by
  constructor
  · rintro ⟨L, hL, hall⟩
    cases L with
    | nil => simp at hL
    | cons y L =>
      have hy := hall y (by simp)
      cases y with
      | nil => exact absurd rfl hy.2
      | cons d u =>
        simp only [List.flatten_cons, List.cons_append, List.cons.injEq] at hL
        obtain ⟨hd, hs⟩ := hL
        subst hd
        exact ⟨u, L.flatten, hs, hy.1, L, rfl, fun z hz => hall z (by simp [hz])⟩
  · rintro ⟨u, v, hs, hu, L, hv, hall⟩
    refine ⟨(c :: u) :: L, by simp [hs, hv], ?_⟩
    intro y hy
    rcases List.mem_cons.mp hy with h | h
    · subst h
      exact ⟨hu, by simp⟩
    · exact hall y h

theorem matches_deriv (r : RegExp) (c : Char) (s : List Char) :
    Matches (deriv r c) s ↔ Matches r (c :: s) := by
  induction r generalizing s with
  | fail => simp [deriv, Matches]
  | eps => simp [deriv, Matches]
  | cls p =>
    by_cases hp : p c = true
    · simp only [deriv, hp, if_true, Matches]
      constructor
      · rintro rfl
        exact ⟨c, rfl, hp⟩
      · rintro ⟨d, hd, _⟩
        simp only [List.cons.injEq] at hd
        exact hd.2
    · simp only [deriv, hp, Matches, false_iff]
      rintro ⟨d, hd, hpd⟩
      simp only [List.cons.injEq] at hd
      exact hp (hd.1 ▸ hpd)
  | seq a b iha ihb =>
    simp only [deriv, Matches]
    constructor
    · rintro (⟨u, v, hs, hu, hv⟩ | h)
      · exact ⟨c :: u, v, by simp [hs], (iha u).mp hu, hv⟩
      · by_cases hn : nullable a = true
        · rw [if_pos hn] at h
          exact ⟨[], c :: s, rfl, (nullable_iff a).mp hn, (ihb s).mp h⟩
        · rw [if_neg hn] at h
          exact absurd h (by simp [Matches])
    · rintro ⟨u, v, hs, hu, hv⟩
      cases u with
      | nil =>
        right
        have hn := (nullable_iff a).mpr hu
        rw [if_pos hn]
        simp only [List.nil_append] at hs
        exact (ihb s).mpr (hs ▸ hv)
      | cons d u =>
        left
        simp only [List.cons_append, List.cons.injEq] at hs
        obtain ⟨hd, hs⟩ := hs
        subst hd
        exact ⟨u, v, hs, (iha u).mpr hu, hv⟩
  | alt a b iha ihb => simp [deriv, Matches, iha, ihb]
  | star a iha =>
    rw [matches_star_cons]
    simp only [deriv]
    constructor
    · rintro ⟨u, v, hs, hu, hv⟩
      exact ⟨u, v, hs, (iha u).mp hu, hv⟩
    · rintro ⟨u, v, hs, hu, hv⟩
      exact ⟨u, v, hs, (iha u).mpr hu, hv⟩

theorem test_iff (r : RegExp) (s : List Char) : test r s = true ↔ Matches r s := by
  induction s generalizing r with
  | nil => simpa [test] using nullable_iff r
  | cons c s ih =>
    have h := ih (deriv r c)
    simp only [test, List.foldl_cons] at h ⊢
    rw [h, matches_deriv]

theorem matches_plus_cls (p : Char → Bool) (s : List Char) :
    Matches (plus (cls p)) s ↔ s ≠ [] ∧ ∀ c ∈ s, p c = true := by
  induction s with
  | nil =>
    simp only [plus, Matches, ne_eq, not_true_eq_false, false_and, iff_false]
    rintro ⟨u, v, huv, ⟨c, hc, _⟩, _⟩
    simp [hc] at huv
  | cons d s ih =>
    simp only [ne_eq, reduceCtorEq, not_false_eq_true, List.mem_cons, forall_eq_or_imp, true_and]
    constructor
    · rintro ⟨u, v, huv, ⟨c, hc, hpc⟩, hv⟩
      subst hc
      simp only [List.singleton_append, List.cons.injEq] at huv
      obtain ⟨hd, hs⟩ := huv
      subst hd
      rw [← hs] at hv
      refine ⟨hpc, ?_⟩
      cases s with
      | nil => simp
      | cons e s =>
        rw [matches_star_cons] at hv
        obtain ⟨u', v', hs', ⟨c', hc', hpc'⟩, hv'⟩ := hv
        simp only [List.cons.injEq] at hc'
        obtain ⟨he, hu'⟩ := hc'
        subst he hu'
        have := (ih.mp ⟨[e], v', by simpa using hs', ⟨e, rfl, hpc'⟩, hv'⟩).2
        exact this
    · rintro ⟨hd, hs⟩
      refine ⟨[d], s, rfl, ⟨d, rfl, hd⟩, ?_⟩
      cases s with
      | nil => exact ⟨[], rfl, by simp⟩
      | cons e s =>
        obtain ⟨u, v, huv, ⟨c, hc, hpc⟩, hv⟩ := ih.mpr ⟨by simp, hs⟩
        subst hc
        simp only [List.singleton_append, List.cons.injEq] at huv
        obtain ⟨he, hs'⟩ := huv
        subst he
        rw [matches_star_cons]
        exact ⟨[], v, by simpa using hs', ⟨e, rfl, hpc⟩, hv⟩

end RegExp

/-! ## Email validation -/

theorem notSpaceAt_iff (c : Char) :
    notSpaceAt c = true ↔ isWhiteSpace c = false ∧ c ≠ '@' := by
  simp [notSpaceAt]

/-- The strings accepted by `validateEmail`, read off the pattern: a
non-empty local part, `@`, a non-empty label, `.`, a non-empty rest, all
three parts free of whitespace and `@`. -/
theorem validateEmail_shape (s : String) :
    validateEmail s = true ↔
      ∃ l x y, s.toList = l ++ '@' :: (x ++ '.' :: y) ∧
        (l ≠ [] ∧ ∀ c ∈ l, notSpaceAt c = true) ∧
        (x ≠ [] ∧ ∀ c ∈ x, notSpaceAt c = true) ∧
        (y ≠ [] ∧ ∀ c ∈ y, notSpaceAt c = true) := by
  unfold validateEmail emailRegex
  rw [RegExp.test_iff]
  constructor
  · rintro ⟨l, r1, h1, hl, a, r2, h2, ⟨c, hc, hca⟩, x, r3, h3, hx, d, y, h4, ⟨e, he, hed⟩, hy⟩
    simp only [beq_iff_eq] at hca hed
    subst hca hed
    refine ⟨l, x, y, ?_, (RegExp.matches_plus_cls _ _).mp hl,
      (RegExp.matches_plus_cls _ _).mp hx, (RegExp.matches_plus_cls _ _).mp hy⟩
    rw [h1, h2, h3, h4, hc, he]
    simp
  · rintro ⟨l, x, y, hs, hl, hx, hy⟩
    exact ⟨l, '@' :: (x ++ '.' :: y), hs, (RegExp.matches_plus_cls _ _).mpr hl,
      ['@'], x ++ '.' :: y, rfl, ⟨'@', rfl, by simp⟩,
      x, '.' :: y, rfl, (RegExp.matches_plus_cls _ _).mpr hx,
      ['.'], y, rfl, ⟨'.', rfl, by simp⟩, (RegExp.matches_plus_cls _ _).mpr hy⟩

theorem mem_notSpaceAt_of_clean {s : List Char} (hws : ∀ c ∈ s, isWhiteSpace c = false)
    (hat : '@' ∉ s) : ∀ c ∈ s, notSpaceAt c = true := by
  intro c hc
  rw [notSpaceAt_iff]
  exact ⟨hws c hc, fun h => hat (h ▸ hc)⟩

/-- C1: `validateEmail(s)` is true exactly when `s` has no whitespace
character, exactly one `@`, a non-empty part before the `@`, and a part after
the `@` holding a `.` that is neither its first nor its last character; it
accepts `a@b.co` and rejects `a@b`, `a@@b.co`, `a b@c.co` and the empty
string. -/
theorem validateEmail_iff :
    (∀ s : String, validateEmail s = true ↔
      ((∀ c ∈ s.toList, isWhiteSpace c = false) ∧
       s.toList.count '@' = 1 ∧
       ∃ loc dom, s.toList = loc ++ '@' :: dom ∧ loc ≠ [] ∧
         ∃ i, 0 < i ∧ i + 1 < dom.length ∧ dom[i]? = some '.')) ∧
    validateEmail "a@b.co" = true ∧ validateEmail "a@b" = false ∧
    validateEmail "a@@b.co" = false ∧ validateEmail "a b@c.co" = false ∧
    validateEmail "" = false := by
  refine ⟨?_, by decide, by decide, by decide, by decide, by decide⟩
  intro s
  rw [validateEmail_shape]
  constructor
  · rintro ⟨l, x, y, hs, ⟨hl, hlc⟩, ⟨hx, hxc⟩, ⟨hy, hyc⟩⟩
    have nat : ∀ {t : List Char}, (∀ c ∈ t, notSpaceAt c = true) → '@' ∉ t := by
      intro t ht hmem
      exact ((notSpaceAt_iff _).mp (ht _ hmem)).2 rfl
    refine ⟨?_, ?_, l, x ++ '.' :: y, hs, hl, x.length, ?_, ?_, ?_⟩
    · intro c hc
      rw [hs] at hc
      simp only [List.mem_append, List.mem_cons] at hc
      rcases hc with h | h | h | h | h
      · exact ((notSpaceAt_iff _).mp (hlc c h)).1
      · subst h; decide
      · exact ((notSpaceAt_iff _).mp (hxc c h)).1
      · subst h; decide
      · exact ((notSpaceAt_iff _).mp (hyc c h)).1
    · rw [hs]
      simp [List.count_append, List.count_cons, List.count_eq_zero.mpr (nat hlc),
        List.count_eq_zero.mpr (nat hxc), List.count_eq_zero.mpr (nat hyc)]
    · exact List.length_pos.mpr hx
    · have := List.length_pos.mpr hy
      simp only [List.length_append, List.length_cons]
      omega
    · rw [List.getElem?_append_right (Nat.le_refl _)]
      simp
  · rintro ⟨hws, hcount, loc, dom, hs, hloc, i, hi0, hi1, hdot⟩
    rw [hs] at hws hcount
    have hc : loc.count '@' = 0 ∧ dom.count '@' = 0 := by
      simp only [List.count_append, List.count_cons, beq_self_eq_true, if_true] at hcount
      omega
    have hatl : '@' ∉ loc := List.count_eq_zero.mp hc.1
    have hatd : '@' ∉ dom := List.count_eq_zero.mp hc.2
    have hilt : i < dom.length := by omega
    have hget : dom[i] = '.' := by
      have := List.getElem?_eq_getElem hilt
      rw [this] at hdot
      exact Option.some.inj hdot
    have hsplit : dom = dom.take i ++ '.' :: dom.drop (i + 1) := by
      conv_lhs => rw [← List.take_append_drop i dom]
      rw [List.drop_eq_getElem_cons hilt, hget]
    have hwsl : ∀ c ∈ loc, isWhiteSpace c = false := fun c h => hws c (by simp [h])
    have hwsd : ∀ c ∈ dom, isWhiteSpace c = false := fun c h => hws c (by simp [h])
    refine ⟨loc, dom.take i, dom.drop (i + 1), ?_, ⟨hloc, mem_notSpaceAt_of_clean hwsl hatl⟩,
      ⟨?_, ?_⟩, ⟨?_, ?_⟩⟩
    · rw [hs, ← hsplit]
    · intro h
      have := congrArg List.length h
      simp only [List.length_take, List.length_nil] at this
      omega
    · exact mem_notSpaceAt_of_clean (fun c h => hwsd c (List.mem_of_mem_take h))
        (fun h => hatd (List.mem_of_mem_take h))
    · intro h
      have := congrArg List.length h
      simp only [List.length_drop, List.length_nil] at this
      omega
    · exact mem_notSpaceAt_of_clean (fun c h => hwsd c (List.mem_of_mem_drop h))
        (fun h => hatd (List.mem_of_mem_drop h))

/-! ## Contact form -/

/-- C2: when a field is empty the submit handler emits exactly one
notification, `Please fill in all fields` with severity `error`; otherwise,
when the email fails `validateEmail`, exactly one notification `Please enter a
valid email` with severity `error`. In both cases the submit control and the
fields are left as they were and the only timer scheduled is the dismissal of
the toast, not a submission callback. -/
theorem submitHandler_invalid (st : FormPage)
    (h : (st.name.value = "" ∨ st.email.value = "" ∨ st.subject.value = "" ∨
            st.message.value = "") ∨
          validateEmail st.email.value = false) :
    ∃ st', submitHandler st = .ok st' ∧
      (∃ toast, st'.ui.notifications = st.ui.notifications ++ [toast] ∧
        toast.type = "error" ∧
        toast.message =
          if st.name.value = "" ∨ st.email.value = "" ∨ st.subject.value = "" ∨
              st.message.value = "" then
            "Please fill in all fields"
          else "Please enter a valid email") ∧
      st'.submitBtn = st.submitBtn ∧
      st'.name = st.name ∧ st'.email = st.email ∧
      st'.subject = st.subject ∧ st'.message = st.message ∧
      (∃ t, st'.ui.timers = st.ui.timers ++ [t] ∧ t.isSubmission = false) := by
  by_cases hempty : st.name.value = "" ∨ st.email.value = "" ∨ st.subject.value = "" ∨
      st.message.value = ""
  · have hcond : (st.name.value == "" || st.email.value == "" || st.subject.value == "" ||
        st.message.value == "") = true := by
      simpa [or_assoc] using hempty
    refine ⟨{ st with ui := showNotification "Please fill in all fields" "error" st.ui },
      ?_, ?_, rfl, rfl, rfl, rfl, rfl, ?_⟩
    · simp only [submitHandler, hcond, if_true]
    · exact ⟨_, rfl, rfl, by rw [if_pos hempty]⟩
    · exact ⟨_, rfl, rfl⟩
  · have hcond : (st.name.value == "" || st.email.value == "" || st.subject.value == "" ||
        st.message.value == "") = false := by
      push_neg at hempty
      simp [hempty.1, hempty.2.1, hempty.2.2.1, hempty.2.2.2]
    have hmail : validateEmail st.email.value = false := h.resolve_left hempty
    refine ⟨{ st with ui := showNotification "Please enter a valid email" "error" st.ui },
      ?_, ?_, rfl, rfl, rfl, rfl, rfl, ?_⟩
    · simp [submitHandler, hcond, hmail]
    · exact ⟨_, rfl, rfl, by rw [if_neg hempty]⟩
    · exact ⟨_, rfl, rfl⟩

/-- The rejection of C2 on a form with an empty message and on a form whose
email has no dot after the `@`. -/
theorem submitHandler_invalid_witness :
    (∃ st', submitHandler
        ⟨⟨"Ann", "", true⟩, ⟨"a@b.co", "", true⟩, ⟨"Hi", "", true⟩, ⟨"", "", true⟩, some ⟨"Send", false⟩, ⟨[], [], 0⟩⟩
          = .ok st' ∧
      (∃ toast, st'.ui.notifications = [toast] ∧ toast.type = "error" ∧
        toast.message = "Please fill in all fields") ∧
      st'.submitBtn = some ⟨"Send", false⟩) ∧
    (∃ st', submitHandler
        ⟨⟨"Ann", "", true⟩, ⟨"a@b", "", true⟩, ⟨"Hi", "", true⟩, ⟨"Hello", "", true⟩, some ⟨"Send", false⟩, ⟨[], [], 0⟩⟩
          = .ok st' ∧
      (∃ toast, st'.ui.notifications = [toast] ∧ toast.type = "error" ∧
        toast.message = "Please enter a valid email") ∧
      st'.submitBtn = some ⟨"Send", false⟩) := by
  constructor
  · obtain ⟨st', h, ⟨toast, h1, h2, h3⟩, h4, _⟩ := submitHandler_invalid
      ⟨⟨"Ann", "", true⟩, ⟨"a@b.co", "", true⟩, ⟨"Hi", "", true⟩, ⟨"", "", true⟩, some ⟨"Send", false⟩, ⟨[], [], 0⟩⟩
      (Or.inl (by decide))
    exact ⟨st', h, ⟨toast, by simpa using h1, h2, by simpa using h3⟩, h4⟩
  · obtain ⟨st', h, ⟨toast, h1, h2, h3⟩, h4, _⟩ := submitHandler_invalid
      ⟨⟨"Ann", "", true⟩, ⟨"a@b", "", true⟩, ⟨"Hi", "", true⟩, ⟨"Hello", "", true⟩, some ⟨"Send", false⟩, ⟨[], [], 0⟩⟩
      (Or.inr (by decide))
    exact ⟨st', h, ⟨toast, by simpa using h1, h2, by simpa using h3⟩, h4⟩

/-- C3 fails as stated, on two pages with four non-empty fields, a valid email
and no submission pending: when the field `#name` sits outside the form, the
callback leaves its value `Ann` in place although its default value is empty,
because `contactForm.reset()` only resets the controls the form owns; and when
the form has no `.btn-submit`, the handler throws instead of setting a
label. -/
theorem submitHandler_success_fails :
    submitHandler
        ⟨⟨"Ann", "", false⟩, ⟨"a@b.co", "", true⟩, ⟨"Hi", "", true⟩, ⟨"Hello", "", true⟩,
          some ⟨"Send", false⟩, ⟨[], [], 0⟩⟩ =
      .ok ⟨⟨"Ann", "", false⟩, ⟨"a@b.co", "", true⟩, ⟨"Hi", "", true⟩, ⟨"Hello", "", true⟩,
          some ⟨"Sending...", true⟩, ⟨[], [⟨1500, .finishSubmit "Send"⟩], 0⟩⟩ ∧
    (fireTimer
        ⟨⟨"Ann", "", false⟩, ⟨"a@b.co", "", true⟩, ⟨"Hi", "", true⟩, ⟨"Hello", "", true⟩,
          some ⟨"Sending...", true⟩, ⟨[], [⟨1500, .finishSubmit "Send"⟩], 0⟩⟩ 0).name.value =
      "Ann" ∧
    ("Ann" : String) ≠ "" ∧
    submitHandler
        ⟨⟨"Ann", "", true⟩, ⟨"a@b.co", "", true⟩, ⟨"Hi", "", true⟩, ⟨"Hello", "", true⟩,
          none, ⟨[], [], 0⟩⟩ =
      .error (.typeError "Cannot read properties of null (reading 'textContent')") := by
  refine ⟨rfl, by decide, by decide, rfl⟩

/-- C3 (amended): on a form that has a submit control, with no submission
pending, four non-empty fields and a valid email, the submit handler sets the
label to `Sending...`, disables the control, emits no notification and
schedules one 1500 ms submission callback; when that callback fires a
`success` notification is emitted, every field owned by the form is back at
its default value while a field outside the form keeps its value, the label
is the one from before the submit and the control is enabled. -/
theorem submitHandler_success (st : FormPage) (btn : SubmitBtn)
    (hbtn : st.submitBtn = some btn)
    (hpending : ∀ t ∈ st.ui.timers, t.isSubmission = false)
    (hfields : st.name.value ≠ "" ∧ st.email.value ≠ "" ∧ st.subject.value ≠ "" ∧
      st.message.value ≠ "")
    (hemail : validateEmail st.email.value = true) :
    ∃ st', submitHandler st = .ok st' ∧
      st'.submitBtn = some ⟨"Sending...", true⟩ ∧
      st'.ui.notifications = st.ui.notifications ∧
      st'.ui.timers.filter Timer.isSubmission = [⟨1500, .finishSubmit btn.textContent⟩] ∧
      st'.ui.timers[st.ui.timers.length]? = some ⟨1500, .finishSubmit btn.textContent⟩ ∧
      (∃ toast, (fireTimer st' st.ui.timers.length).ui.notifications =
          st.ui.notifications ++ [toast] ∧ toast.type = "success") ∧
      (fireTimer st' st.ui.timers.length).name.value =
        (if st.name.owned = true then st.name.defaultValue else st.name.value) ∧
      (fireTimer st' st.ui.timers.length).email.value =
        (if st.email.owned = true then st.email.defaultValue else st.email.value) ∧
      (fireTimer st' st.ui.timers.length).subject.value =
        (if st.subject.owned = true then st.subject.defaultValue else st.subject.value) ∧
      (fireTimer st' st.ui.timers.length).message.value =
        (if st.message.owned = true then st.message.defaultValue else st.message.value) ∧
      (fireTimer st' st.ui.timers.length).submitBtn = some ⟨btn.textContent, false⟩ ∧
      (fireTimer st' st.ui.timers.length).ui.timers.filter Timer.isSubmission = [] := by
  obtain ⟨hn, he, hs, hm⟩ := hfields
  have hcond : (st.name.value == "" || st.email.value == "" || st.subject.value == "" ||
      st.message.value == "") = false := by
    simp [hn, he, hs, hm]
  have hnone : st.ui.timers.filter Timer.isSubmission = [] := by
    rw [List.filter_eq_nil_iff]
    intro t ht
    simp [hpending t ht]
  have hreset : ∀ field : Field,
      field.reset.value = if field.owned = true then field.defaultValue else field.value := by
    intro field
    unfold Field.reset
    split <;> rfl
  refine ⟨{ st with
      submitBtn := some { textContent := "Sending...", disabled := true }
      ui := { st.ui with
              timers := st.ui.timers ++ [⟨1500, .finishSubmit btn.textContent⟩] } },
    ?_, rfl, rfl, ?_, ?_, ?_⟩
  · simp [submitHandler, hcond, hemail, hbtn]
  · simp [List.filter_append, hnone, Timer.isSubmission]
  · simp
  · simp [fireTimer, runCallback, FormPage.reset, hreset, showNotification,
      List.eraseIdx_append_of_length_le, List.filter_append, hnone, Timer.isSubmission]

/-- The statement of C3 (amended) on a filled-in form whose submit control
reads `Send` and whose `#name` field sits outside the form. -/
theorem submitHandler_success_witness :
    ∃ st', submitHandler
        ⟨⟨"Ann", "", false⟩, ⟨"a@b.co", "", true⟩, ⟨"Hi", "", true⟩, ⟨"Hello", "", true⟩,
          some ⟨"Send", false⟩, ⟨[], [], 0⟩⟩
          = .ok st' ∧
      st'.submitBtn = some ⟨"Sending...", true⟩ ∧
      (fireTimer st' 0).submitBtn = some ⟨"Send", false⟩ ∧
      (fireTimer st' 0).name.value = "Ann" ∧
      (fireTimer st' 0).message.value = "" := by
  obtain ⟨st', h, h1, _, _, _, _, h4, _, _, h2, h3, _⟩ := submitHandler_success
    ⟨⟨"Ann", "", false⟩, ⟨"a@b.co", "", true⟩, ⟨"Hi", "", true⟩, ⟨"Hello", "", true⟩,
      some ⟨"Send", false⟩, ⟨[], [], 0⟩⟩
    ⟨"Send", false⟩ rfl (by simp) (by decide) (by decide)
  exact ⟨st', h, h1, h3, h4, h2⟩

/-! ## Class lists -/

theorem classListContains_add (cl : List String) (t : String) :
    classListContains (classListAdd cl t) t = true := by
  unfold classListContains classListAdd
  by_cases h : t ∈ cl <;> simp [h]

theorem classListContains_remove (cl : List String) (t : String) :
    classListContains (classListRemove cl t) t = false := by
  simp [classListContains, classListRemove]

theorem classListRemove_idem (cl : List String) (t : String) :
    classListRemove (classListRemove cl t) t = classListRemove cl t := by
  simp [classListRemove, List.filter_filter]

theorem classListAdd_idem (cl : List String) (t : String) :
    classListAdd (classListAdd cl t) t = classListAdd cl t := by
  have h := classListContains_add cl t
  simp only [classListContains, decide_eq_true_eq] at h
  generalize classListAdd cl t = cl2 at h ⊢
  unfold classListAdd
  rw [if_pos h]

theorem classListRemove_add (cl : List String) (t : String) :
    classListRemove (classListAdd cl t) t = classListRemove cl t := by
  unfold classListAdd
  by_cases h : t ∈ cl
  · rw [if_pos h]
  · rw [if_neg h]
    simp [classListRemove, List.filter_append]

/-! ## Portfolio filter -/

theorem filterClick_buttons_getElem? (g : Gallery) (i : Nat) (this : FilterBtn)
    (hthis : g.filterButtons[i]? = some this) (j : Nat) :
    (filterClick g i).filterButtons[j]? =
      (g.filterButtons[j]?).map fun btn =>
        if i = j then
          { btn with classList := classListAdd (classListRemove btn.classList "active") "active" }
        else { btn with classList := classListRemove btn.classList "active" } := by
  simp only [filterClick, hthis, List.getElem?_modify, List.getElem?_map]
  cases g.filterButtons[j]? with
  | none => rfl
  | some btn => by_cases hij : i = j <;> simp [hij]

theorem filterClick_items_getElem? (g : Gallery) (i : Nat) (this : FilterBtn)
    (hthis : g.filterButtons[i]? = some this) (j : Nat) :
    (filterClick g i).portfolioItems[j]? =
      (g.portfolioItems[j]?).map fun item =>
        if this.dataFilter == some "all" || item.dataCategory == this.dataFilter then
          { item with
            classList := classListRemove item.classList "hidden"
            animation := "fadeInScale 0.6s ease forwards" }
        else
          { item with classList := classListAdd item.classList "hidden" } := by
  simp only [filterClick, hthis, List.getElem?_map]

theorem filterClick_dataFilter (g : Gallery) (i j : Nat) :
    ((filterClick g i).filterButtons[j]?).map FilterBtn.dataFilter =
      (g.filterButtons[j]?).map FilterBtn.dataFilter := by
  cases hthis : g.filterButtons[i]? with
  | none => simp [filterClick, hthis]
  | some this =>
    rw [filterClick_buttons_getElem? g i this hthis j]
    cases g.filterButtons[j]? with
    | none => rfl
    | some btn => by_cases hij : i = j <;> simp [hij]

theorem filterRun_dataFilter (g : Gallery) (clicks : List Nat) (j : Nat) :
    ((clicks.foldl filterClick g).filterButtons[j]?).map FilterBtn.dataFilter =
      (g.filterButtons[j]?).map FilterBtn.dataFilter := by
  induction clicks generalizing g with
  | nil => rfl
  | cons c cs ih => rw [List.foldl_cons, ih, filterClick_dataFilter]

theorem filterClick_items_length (g : Gallery) (i : Nat) :
    (filterClick g i).portfolioItems.length = g.portfolioItems.length := by
  cases hthis : g.filterButtons[i]? with
  | none => simp [filterClick, hthis]
  | some this => simp [filterClick, hthis]

theorem filterRun_items_length (g : Gallery) (clicks : List Nat) :
    (clicks.foldl filterClick g).portfolioItems.length = g.portfolioItems.length := by
  induction clicks generalizing g with
  | nil => rfl
  | cons c cs ih => rw [List.foldl_cons, ih, filterClick_items_length]

theorem filterClick_hidden_aux (g : Gallery) (i : Nat) (this : FilterBtn) (f : String)
    (hthis : g.filterButtons[i]? = some this) (hf : this.dataFilter = some f)
    (j : Nat) (item : PortfolioItem) (hitem : g.portfolioItems[j]? = some item) :
    ∃ item', (filterClick g i).portfolioItems[j]? = some item' ∧
      item'.dataCategory = item.dataCategory ∧
      (item'.hidden = true ↔ f ≠ "all" ∧ item.dataCategory ≠ some f) := by
  rw [filterClick_items_getElem? g i this hthis j, hitem, hf]
  simp only [Option.map_some']
  by_cases hc : (some f == some "all" || item.dataCategory == some f) = true
  · rw [if_pos hc]
    refine ⟨_, rfl, rfl, ?_⟩
    simp only [PortfolioItem.hidden, classListContains_remove, Bool.false_eq_true, false_iff]
    simp only [Bool.or_eq_true, beq_iff_eq, Option.some.injEq] at hc
    tauto
  · rw [if_neg hc]
    refine ⟨_, rfl, rfl, ?_⟩
    simp only [PortfolioItem.hidden, classListContains_add, true_iff]
    simp only [Bool.or_eq_true, beq_iff_eq, Option.some.injEq, not_or] at hc
    exact hc

/-- C4: after the click handler of a filter button whose `data-filter` is `f`
has run, an item carries `hidden` exactly when `f` is not `all` and the
item's `data-category` differs from `f`, whatever the classes were before;
and clicking a button whose `data-filter` is `all` after any sequence of
filter clicks leaves no item hidden. -/
theorem filterClick_hidden_iff (g : Gallery) (i : Nat) (this : FilterBtn) (f : String)
    (hthis : g.filterButtons[i]? = some this) (hf : this.dataFilter = some f) :
    (filterClick g i).portfolioItems.length = g.portfolioItems.length ∧
    (∀ (j : Nat) (item : PortfolioItem), g.portfolioItems[j]? = some item →
      ∃ item' : PortfolioItem, (filterClick g i).portfolioItems[j]? = some item' ∧
        item'.dataCategory = item.dataCategory ∧
        (item'.hidden = true ↔ f ≠ "all" ∧ item.dataCategory ≠ some f)) ∧
    (f = "all" → ∀ clicks : List Nat,
      ∀ item' ∈ (filterClick (clicks.foldl filterClick g) i).portfolioItems,
        item'.hidden = false) := by
  refine ⟨filterClick_items_length g i, filterClick_hidden_aux g i this f hthis hf, ?_⟩
  intro hall clicks item' hmem
  subst hall
  have hd := filterRun_dataFilter g clicks i
  rw [hthis] at hd
  cases hb : (clicks.foldl filterClick g).filterButtons[i]? with
  | none => rw [hb] at hd; simp at hd
  | some b =>
    rw [hb] at hd
    simp only [Option.map_some', Option.some.injEq] at hd
    obtain ⟨j, hj, hget⟩ := List.getElem_of_mem hmem
    have hj' : j < (clicks.foldl filterClick g).portfolioItems.length := by
      rw [filterClick_items_length] at hj
      exact hj
    obtain ⟨it, hit1, _, hit3⟩ := filterClick_hidden_aux (clicks.foldl filterClick g) i b "all"
      hb (hd.trans hf) j _ (List.getElem?_eq_getElem hj')
    rw [List.getElem?_eq_getElem hj, hget] at hit1
    cases hit1
    cases hh : item'.hidden with
    | false => rfl
    | true => exact absurd rfl (hit3.mp hh).1

/-- The statement of C4 on `sampleGallery`: the `books` filter hides the one
item of another category, and `all` shows everything afterwards. -/
theorem filterClick_hidden_iff_witness :
    (filterClick sampleGallery 1).portfolioItems.length = 3 ∧
    (filterClick sampleGallery 1).portfolioItems.map PortfolioItem.hidden = [false, true, false] ∧
    ∀ item' ∈ (filterClick ([1, 2, 1].foldl filterClick sampleGallery) 0).portfolioItems,
      item'.hidden = false :=
  ⟨(filterClick_hidden_iff sampleGallery 1 ⟨some "books", []⟩ "books" (by decide) rfl).1,
    by decide,
    (filterClick_hidden_iff sampleGallery 0 ⟨some "all", ["active"]⟩ "all" (by decide) rfl).2.2
      rfl [1, 2, 1]⟩

/-- C5: clicking a filter button twice in a row gives the state one click
gives (same classes on every button and item), and in that state the clicked
button is the one and only button carrying `active`. -/
theorem filterClick_idempotent (g : Gallery) (i : Nat) (hi : i < g.filterButtons.length) :
    filterClick (filterClick g i) i = filterClick g i ∧
    (filterClick g i).filterButtons.length = g.filterButtons.length ∧
    (∃ btn : FilterBtn, (filterClick g i).filterButtons[i]? = some btn ∧ btn.active = true) ∧
    ∀ (j : Nat) (btn : FilterBtn), (filterClick g i).filterButtons[j]? = some btn →
      (btn.active = true ↔ j = i) := by
  have hthis : g.filterButtons[i]? = some g.filterButtons[i] := List.getElem?_eq_getElem hi
  have hthis' : (filterClick g i).filterButtons[i]? =
      some { g.filterButtons[i] with
        classList := classListAdd (classListRemove g.filterButtons[i].classList "active")
          "active" } := by
    rw [filterClick_buttons_getElem? g i _ hthis i, hthis]
    simp
  have hact : ∀ (j : Nat) (btn : FilterBtn), (filterClick g i).filterButtons[j]? = some btn →
      (btn.active = true ↔ j = i) := by
    intro j btn hb
    rw [filterClick_buttons_getElem? g i _ hthis j] at hb
    cases hj : g.filterButtons[j]? with
    | none => rw [hj] at hb; simp at hb
    | some b =>
      rw [hj] at hb
      simp only [Option.map_some', Option.some.injEq] at hb
      by_cases hij : i = j
      · rw [if_pos hij] at hb
        subst hb
        simp [FilterBtn.active, classListContains_add, hij]
      · rw [if_neg hij] at hb
        subst hb
        simp only [FilterBtn.active, classListContains_remove, Bool.false_eq_true, false_iff]
        exact fun h => hij h.symm
  refine ⟨?_, ?_, ⟨_, hthis', by simp [FilterBtn.active, classListContains_add]⟩, hact⟩
  · have hb : (filterClick (filterClick g i) i).filterButtons = (filterClick g i).filterButtons := by
      apply List.ext_getElem?
      intro j
      rw [filterClick_buttons_getElem? _ i _ hthis' j, filterClick_buttons_getElem? g i _ hthis j]
      cases g.filterButtons[j]? with
      | none => rfl
      | some b =>
        by_cases hij : i = j
        · simp [hij, classListRemove_add, classListRemove_idem]
        · simp [hij, classListRemove_idem]
    have hp : (filterClick (filterClick g i) i).portfolioItems = (filterClick g i).portfolioItems := by
      apply List.ext_getElem?
      intro j
      rw [filterClick_items_getElem? _ i _ hthis' j, filterClick_items_getElem? g i _ hthis j]
      cases g.portfolioItems[j]? with
      | none => rfl
      | some it =>
        simp only [Option.map_some', Option.some.injEq]
        by_cases hc : (g.filterButtons[i].dataFilter == some "all" ||
            it.dataCategory == g.filterButtons[i].dataFilter) = true
        · simp [hc, classListRemove_idem]
        · simp [hc, classListAdd_idem]
    calc filterClick (filterClick g i) i
        = ⟨(filterClick (filterClick g i) i).filterButtons,
            (filterClick (filterClick g i) i).portfolioItems⟩ := rfl
      _ = ⟨(filterClick g i).filterButtons, (filterClick g i).portfolioItems⟩ := by rw [hb, hp]
      _ = filterClick g i := rfl
  · simp [filterClick, hthis]

/-- The statement of C5 on `sampleGallery`, clicking the `books` button. -/
theorem filterClick_idempotent_witness :
    filterClick (filterClick sampleGallery 1) 1 = filterClick sampleGallery 1 ∧
    (filterClick sampleGallery 1).filterButtons.map FilterBtn.active = [false, true, false] :=
  ⟨(filterClick_idempotent sampleGallery 1 (by decide)).1, by decide⟩

/-! ## Easter egg -/

theorem foldl_append_data (l : List String) (acc : String) :
    (l.foldl (fun r s => r ++ s) acc).data = acc.data ++ (l.map String.data).flatten := by
  induction l generalizing acc with
  | nil => simp
  | cons s l ih => simp [ih, String.data_append, List.append_assoc]

theorem join_data (l : List String) :
    (String.join l).data = (l.map String.data).flatten := by
  unfold String.join
  rw [foldl_append_data]
  rfl

theorem join_secretCode :
    (String.join secretCode).data = ['c', 'r', 'e', 'a', 't', 'i', 'v', 'e'] := by
  decide

theorem pushKey_length (b : List String) (l : String) (hb : b.length ≤ 8) :
    (pushKey b l).length ≤ 8 := by
  unfold pushKey
  simp only [secretCode, List.length_append, List.length_cons, List.length_nil]
  split
  · simp only [List.length_tail, List.length_append, List.length_cons, List.length_nil]
    omega
  · simp only [List.length_append, List.length_cons, List.length_nil]
    omega

theorem pushKey_keeps (b : List String) (l : String) (hb : b.length ≤ 8)
    (pre ks : List String) (hks : b = pre ++ ks) (hlen : ks.length < 8) :
    ∃ pre', pre'.length ≤ pre.length ∧ pushKey b l = pre' ++ (ks ++ [l]) := by
  unfold pushKey
  simp only [secretCode, List.length_append, List.length_cons, List.length_nil]
  split
  · next h =>
    cases pre with
    | nil =>
      subst hks
      omega
    | cons a pre =>
      subst hks
      exact ⟨pre, by simp, by simp⟩
  · exact ⟨pre, le_refl _, by simp [hks]⟩

theorem easterEggFired_iff (L : String → String) (st : EggState) (key : String) :
    easterEggFired L st key = true ↔
      String.join (pushKey st.keySequence (L key)) = String.join secretCode := by
  unfold easterEggFired easterEggKeydown
  by_cases h : String.join (pushKey st.keySequence (L key)) = String.join secretCode
  · simp [h, triggerEasterEgg]
  · simp [h]

theorem easterEggKeydown_keySequence (L : String → String) (st : EggState) (key : String) :
    (easterEggKeydown L st key).keySequence =
      if easterEggFired L st key = true then [] else pushKey st.keySequence (L key) := by
  by_cases h : easterEggFired L st key = true
  · rw [if_pos h]
    rw [easterEggFired_iff] at h
    simp [easterEggKeydown, h]
  · rw [if_neg h]
    rw [easterEggFired_iff] at h
    simp [easterEggKeydown, h]

theorem easterEggKeydown_length (L : String → String) (st : EggState) (key : String)
    (hb : st.keySequence.length ≤ 8) : (easterEggKeydown L st key).keySequence.length ≤ 8 := by
  rw [easterEggKeydown_keySequence]
  split
  · simp
  · exact pushKey_length _ _ hb

theorem easterEggRun_length (L : String → String) (st : EggState) (keys : List String)
    (hb : st.keySequence.length ≤ 8) : (easterEggRun L st keys).keySequence.length ≤ 8 := by
  induction keys generalizing st with
  | nil => exact hb
  | cons k ks ih => exact ih _ (easterEggKeydown_length L st k hb)

theorem append_eq_drop {α : Type} (t x c : List α) (h : t ++ x = c) :
    x = c.drop (c.length - x.length) := by
  subst h
  simp

/-- A call of `triggerEasterEgg` forces the text of the most recent keys to be
a tail of `creative`. -/
theorem easterEggFired_tail (L : String → String) (st : EggState) (key : String)
    (pre ks : List String) (hb : st.keySequence.length ≤ 8)
    (hks : st.keySequence = pre ++ ks) (hlen : ks.length < 8)
    (hf : easterEggFired L st key = true) :
    ((ks ++ [L key]).map String.data).flatten =
      ['c', 'r', 'e', 'a', 't', 'i', 'v', 'e'].drop
        (8 - (((ks ++ [L key]).map String.data).flatten).length) := by
  rw [easterEggFired_iff] at hf
  obtain ⟨pre', _, hp⟩ := pushKey_keeps _ (L key) hb pre ks hks hlen
  have hd := congrArg String.data hf
  rw [join_data, join_secretCode, hp, List.map_append, List.flatten_append] at hd
  exact append_eq_drop _ _ _ hd

/-- Keys whose text, together with the keys known to precede them, never forms
a tail of `creative` do not call `triggerEasterEgg`, and stay at the end of
the buffer. -/
theorem easterEggTrace_quiet (L : String → String) (keys : List String) :
    ∀ (st : EggState) (pre ks : List String), st.keySequence.length ≤ 8 →
      st.keySequence = pre ++ ks → ks.length + keys.length ≤ 8 →
      (∀ m, 1 ≤ m → m ≤ keys.length →
        ((ks ++ (keys.take m).map L).map String.data).flatten ≠
          ['c', 'r', 'e', 'a', 't', 'i', 'v', 'e'].drop
            (8 - (((ks ++ (keys.take m).map L).map String.data).flatten).length)) →
      easterEggTrace L st keys = List.replicate keys.length false ∧
      ∃ pre', pre'.length ≤ pre.length ∧
        (easterEggRun L st keys).keySequence = pre' ++ (ks ++ keys.map L) := by
  induction keys with
  | nil =>
    intro st pre ks _ hks _ _
    exact ⟨rfl, pre, le_refl _, by simpa [easterEggRun] using hks⟩
  | cons k keys ih =>
    intro st pre ks hb hks hlen hq
    simp only [List.length_cons] at hlen
    have hnf : easterEggFired L st k = false := by
      cases hf : easterEggFired L st k with
      | false => rfl
      | true =>
        have := easterEggFired_tail L st k pre ks hb hks (by omega) hf
        exact absurd this (by simpa using hq 1 (le_refl 1) (by simp))
    have hseq : (easterEggKeydown L st k).keySequence = pushKey st.keySequence (L k) := by
      rw [easterEggKeydown_keySequence, hnf]
      simp
    obtain ⟨pre1, hle1, hp1⟩ := pushKey_keeps _ (L k) hb pre ks hks (by omega)
    obtain ⟨ht, pre', hle, hrun⟩ := ih (easterEggKeydown L st k) pre1 (ks ++ [L k])
      (easterEggKeydown_length L st k hb) (hseq.trans hp1)
      (by simp only [List.length_append, List.length_cons, List.length_nil]; omega)
      (by
        intro m hm1 hm2
        have := hq (m + 1) (by omega) (by simp only [List.length_cons]; omega)
        simpa [List.take_succ_cons, List.append_assoc] using this)
    refine ⟨?_, pre', hle.trans hle1, ?_⟩
    · simp [easterEggTrace, hnf, ht, List.replicate_succ]
    · simpa [easterEggRun, List.append_assoc] using hrun

/-- Once the buffer ends with the first seven keys of the code, the eighth
calls `triggerEasterEgg` and empties the buffer. -/
theorem easterEggFired_complete (L : String → String) (st : EggState) (key : String)
    (pre ks : List String) (hb : st.keySequence.length ≤ 8)
    (hks : st.keySequence = pre ++ ks) (hcode : ks ++ [L key] = secretCode) :
    easterEggFired L st key = true ∧ (easterEggKeydown L st key).keySequence = [] := by
  have hlen : ks.length < 8 := by
    have := congrArg List.length hcode
    simp only [List.length_append, List.length_cons, List.length_nil, secretCode] at this
    omega
  obtain ⟨pre', _, hp⟩ := pushKey_keeps _ (L key) hb pre ks hks hlen
  have hl := pushKey_length st.keySequence (L key) hb
  rw [hp, hcode] at hl
  have hnil : pre' = [] := by
    cases pre' with
    | nil => rfl
    | cons a t =>
      simp only [List.length_append, List.length_cons, secretCode, List.length_nil] at hl
      omega
  have hf : easterEggFired L st key = true := by
    rw [easterEggFired_iff, hp, hcode, hnil]
    rfl
  exact ⟨hf, by rw [easterEggKeydown_keySequence, if_pos hf]⟩

theorem length_eq_eight {α : Type} (l : List α) (h : l.length = 8) :
    ∃ a b c d e f g i, l = [a, b, c, d, e, f, g, i] := by
  rcases l with _ | ⟨a, _ | ⟨b, _ | ⟨c, _ | ⟨d, _ | ⟨e, _ | ⟨f, _ | ⟨g, _ | ⟨i, _ | ⟨j, t⟩⟩⟩⟩⟩⟩⟩⟩⟩ <;>
    simp at h
  exact ⟨a, b, c, d, e, f, g, i, rfl⟩

theorem easterEggRun_append (L : String → String) (st : EggState) (a b : List String) :
    easterEggRun L st (a ++ b) = easterEggRun L (easterEggRun L st a) b := by
  simp [easterEggRun, List.foldl_append]

theorem easterEggRun_singleton (L : String → String) (st : EggState) (k : String) :
    easterEggRun L st [k] = easterEggKeydown L st k := rfl

theorem easterEggTrace_append (L : String → String) (st : EggState) (a b : List String) :
    easterEggTrace L st (a ++ b) =
      easterEggTrace L st a ++ easterEggTrace L (easterEggRun L st a) b := by
  induction a generalizing st with
  | nil => rfl
  | cons k a ih => simp [easterEggTrace, ih, easterEggRun]

theorem easterEggKeydown_eggCalls (L : String → String) (st : EggState) (key : String) :
    (easterEggKeydown L st key).eggCalls =
      st.eggCalls + if easterEggFired L st key = true then 1 else 0 := by
  by_cases h : easterEggFired L st key = true
  · rw [if_pos h]
    rw [easterEggFired_iff] at h
    simp [easterEggKeydown, h, triggerEasterEgg]
  · rw [if_neg h]
    rw [easterEggFired_iff] at h
    simp [easterEggKeydown, h]

theorem easterEggRun_eggCalls (L : String → String) (st : EggState) (keys : List String) :
    (easterEggRun L st keys).eggCalls = st.eggCalls + (easterEggTrace L st keys).count true := by
  induction keys generalizing st with
  | nil => rfl
  | cons k keys ih =>
    have h := ih (easterEggKeydown L st k)
    simp only [easterEggRun, List.foldl_cons] at h ⊢
    rw [h, easterEggKeydown_eggCalls, easterEggTrace]
    by_cases hf : easterEggFired L st k = true
    · simp [hf]
      omega
    · simp only [Bool.not_eq_true] at hf
      simp [hf]

/-- C6: from any state reached from the empty key buffer, pressing eight keys
whose lower-cased identifiers are `c r e a t i v e` calls `triggerEasterEgg`
on the eighth keypress and on none of the first seven, and leaves the buffer
empty; so any key string ending with the phrase fires on its last keypress. -/
theorem easterEgg_phrase_fires (L : String → String) (heroTitle : Option String) (ui : Screen)
    (typed keys : List String) (hkeys : keys.map L = secretCode) :
    easterEggTrace L (easterEggRun L (eggInit heroTitle ui) typed) keys =
      [false, false, false, false, false, false, false, true] ∧
    (easterEggRun L (easterEggRun L (eggInit heroTitle ui) typed) keys).eggCalls =
      (easterEggRun L (eggInit heroTitle ui) typed).eggCalls + 1 ∧
    (easterEggRun L (easterEggRun L (eggInit heroTitle ui) typed) keys).keySequence = [] ∧
    (easterEggTrace L (eggInit heroTitle ui) (typed ++ keys)).getLast? = some true := by
  have hb : (easterEggRun L (eggInit heroTitle ui) typed).keySequence.length ≤ 8 :=
    easterEggRun_length L _ typed (by simp [eggInit])
  rw [easterEggTrace_append]
  generalize easterEggTrace L (eggInit heroTitle ui) typed = before
  generalize easterEggRun L (eggInit heroTitle ui) typed = st at hb ⊢
  have hlen : keys.length = 8 := by
    have := congrArg List.length hkeys
    simpa [secretCode] using this
  obtain ⟨k0, k1, k2, k3, k4, k5, k6, k7, rfl⟩ := length_eq_eight keys hlen
  simp only [List.map_cons, List.map_nil, secretCode, List.cons.injEq, and_true] at hkeys
  obtain ⟨h0, h1, h2, h3, h4, h5, h6, h7⟩ := hkeys
  have hsplit : [k0, k1, k2, k3, k4, k5, k6, k7] = [k0, k1, k2, k3, k4, k5, k6] ++ [k7] := rfl
  obtain ⟨hq, pre', _, hrun⟩ := easterEggTrace_quiet L [k0, k1, k2, k3, k4, k5, k6] st
    st.keySequence [] hb (by simp) (by simp) (by
      intro m hm1 hm2
      simp only [List.length_cons, List.length_nil] at hm2
      interval_cases m <;>
        simp only [List.take_succ_cons, List.take_zero, List.map_cons, List.map_nil,
          h0, h1, h2, h3, h4, h5, h6] <;> decide)
  simp only [List.map_cons, List.map_nil, h0, h1, h2, h3, h4, h5, h6, List.nil_append] at hrun
  obtain ⟨hf, hempty⟩ := easterEggFired_complete L
    (easterEggRun L st [k0, k1, k2, k3, k4, k5, k6]) k7 pre' _
    (easterEggRun_length L st _ hb) hrun (by rw [h7]; rfl)
  have htrace : easterEggTrace L st [k0, k1, k2, k3, k4, k5, k6, k7] =
      [false, false, false, false, false, false, false, true] := by
    rw [hsplit, easterEggTrace_append, hq]
    simp [easterEggTrace, hf]
  refine ⟨htrace, ?_, ?_, ?_⟩
  · rw [easterEggRun_eggCalls, htrace]
    rfl
  · rw [hsplit, easterEggRun_append, easterEggRun_singleton]
    exact hempty
  · rw [htrace]
    simp

/-- The statement of C6 for the mixed-case keys `C r E a T i V e` typed after
`x` and `c`. -/
theorem easterEgg_phrase_fires_witness :
    easterEggTrace asciiToLowerCase
        (easterEggRun asciiToLowerCase (eggInit none ⟨[], [], 0⟩) ["x", "c"])
        ["C", "r", "E", "a", "T", "i", "V", "e"] =
      [false, false, false, false, false, false, false, true] :=
  (easterEgg_phrase_fires asciiToLowerCase none ⟨[], [], 0⟩ ["x", "c"]
    ["C", "r", "E", "a", "T", "i", "V", "e"] (by decide)).1

/-- C7: the listener compares `keySequence.join('')` with
`secretCode.join('')`, so after the keys `cre` and `ative` the buffer is
`["cre", "ative"]`, which is not `secretCode` element by element, and
`triggerEasterEgg` is called all the same. -/
theorem easterEgg_join_collision :
    (easterEggRun asciiToLowerCase (eggInit none ⟨[], [], 0⟩) ["cre"]).keySequence = ["cre"] ∧
    pushKey ["cre"] (asciiToLowerCase "ative") = ["cre", "ative"] ∧
    pushKey ["cre"] (asciiToLowerCase "ative") ≠ secretCode ∧
    easterEggFired asciiToLowerCase
      (easterEggRun asciiToLowerCase (eggInit none ⟨[], [], 0⟩) ["cre"]) "ative" = true ∧
    easterEggTrace asciiToLowerCase (eggInit none ⟨[], [], 0⟩) ["cre", "ative"] =
      [false, true] := by
  decide

/-- C8 fails as stated: after `c r e a t i v`, the eight keys `e r e a t i v e`
differ from `creative` in the first position only, and the first of them
calls `triggerEasterEgg`. -/
theorem easterEgg_altered_fires :
    (["e", "r", "e", "a", "t", "i", "v", "e"].map asciiToLowerCase)[0]? ≠ secretCode[0]? ∧
    (∀ i, i ≠ 0 →
      (["e", "r", "e", "a", "t", "i", "v", "e"].map asciiToLowerCase)[i]? = secretCode[i]?) ∧
    (∀ k ∈ ["e", "r", "e", "a", "t", "i", "v", "e"], String.length k = 1) ∧
    easterEggTrace asciiToLowerCase
        (easterEggRun asciiToLowerCase (eggInit none ⟨[], [], 0⟩)
          ["c", "r", "e", "a", "t", "i", "v"])
        ["e", "r", "e", "a", "t", "i", "v", "e"] =
      [true, false, false, false, false, false, false, false] := by
  refine ⟨by decide, ?_, by decide, by decide⟩
  intro i hi
  rcases i with _ | _ | _ | _ | _ | _ | _ | _ | i
  · exact absurd rfl hi
  all_goals first
    | decide
    | simp [secretCode]

theorem string_of_length_one (l : String) (h : l.length = 1) : ∃ x, l = ⟨[x]⟩ := by
  rcases l with ⟨d⟩
  simp only [String.length] at h
  obtain ⟨x, rfl⟩ := List.length_eq_one.mp h
  exact ⟨x, rfl⟩

theorem secretCode_chars :
    secretCode = [⟨['c']⟩, ⟨['r']⟩, ⟨['e']⟩, ⟨['a']⟩, ⟨['t']⟩, ⟨['i']⟩, ⟨['v']⟩, ⟨['e']⟩] := rfl

theorem easterEgg_altered_aux (L : String → String) (st : EggState) (hb : st.keySequence.length ≤ 8)
    (k0 k1 k2 k3 k4 k5 k6 k7 : String) (p : Nat)
    (hsingle : ∀ k ∈ [k0, k1, k2, k3, k4, k5, k6, k7], (L k).length = 1)
    (hp : ([k0, k1, k2, k3, k4, k5, k6, k7].map L)[p]? ≠ secretCode[p]?)
    (hrest : ∀ i, i ≠ p → ([k0, k1, k2, k3, k4, k5, k6, k7].map L)[i]? = secretCode[i]?) :
    (easterEggTrace L st [k0, k1, k2, k3, k4, k5, k6, k7]).tail = List.replicate 7 false ∧
    ((easterEggTrace L st [k0, k1, k2, k3, k4, k5, k6, k7]).head? = some true →
      p = 0 ∧ L k0 = "e") ∧
    (st.keySequence = [] →
      easterEggTrace L st [k0, k1, k2, k3, k4, k5, k6, k7] = List.replicate 8 false) := by
  have hp8 : p < 8 := by
    by_contra hge
    apply hp
    rw [List.getElem?_eq_none (by simp; omega), List.getElem?_eq_none (by simp [secretCode]; omega)]
  obtain ⟨x0, hx0⟩ := string_of_length_one _ (hsingle k0 (by simp))
  obtain ⟨x1, hx1⟩ := string_of_length_one _ (hsingle k1 (by simp))
  obtain ⟨x2, hx2⟩ := string_of_length_one _ (hsingle k2 (by simp))
  obtain ⟨x3, hx3⟩ := string_of_length_one _ (hsingle k3 (by simp))
  obtain ⟨x4, hx4⟩ := string_of_length_one _ (hsingle k4 (by simp))
  obtain ⟨x5, hx5⟩ := string_of_length_one _ (hsingle k5 (by simp))
  obtain ⟨x6, hx6⟩ := string_of_length_one _ (hsingle k6 (by simp))
  obtain ⟨x7, hx7⟩ := string_of_length_one _ (hsingle k7 (by simp))
  simp only [List.map_cons, List.map_nil, hx0, hx1, hx2, hx3, hx4, hx5, hx6, hx7,
    secretCode_chars] at hp hrest
  have e0 := hrest 0
  have e1 := hrest 1
  have e2 := hrest 2
  have e3 := hrest 3
  have e4 := hrest 4
  have e5 := hrest 5
  have e6 := hrest 6
  have e7 := hrest 7
  clear hrest hsingle
  interval_cases p
  · simp at hp e1 e2 e3 e4 e5 e6 e7
    rw [e1] at hx1
    rw [e2] at hx2
    rw [e3] at hx3
    rw [e4] at hx4
    rw [e5] at hx5
    rw [e6] at hx6
    rw [e7] at hx7
    have hcons : easterEggTrace L st [k0, k1, k2, k3, k4, k5, k6, k7] =
        easterEggFired L st k0 ::
          easterEggTrace L (easterEggKeydown L st k0) [k1, k2, k3, k4, k5, k6, k7] := rfl
    cases hf : easterEggFired L st k0 with
    | true =>
      have hx : x0 = 'e' := by
        have := easterEggFired_tail L st k0 st.keySequence [] hb (by simp) (by simp) hf
        simpa [hx0] using this
      have hseq : (easterEggKeydown L st k0).keySequence = [] := by
        rw [easterEggKeydown_keySequence, if_pos hf]
      obtain ⟨hq, pre', hle, hrun⟩ := easterEggTrace_quiet L [k1, k2, k3, k4, k5, k6]
        (easterEggKeydown L st k0) [] [] (easterEggKeydown_length L st k0 hb)
        (by simp [hseq]) (by simp) (by
          intro m hm1 hm2
          simp only [List.length_cons, List.length_nil] at hm2
          interval_cases m <;> simp [List.take_succ_cons, hx1, hx2, hx3, hx4, hx5, hx6])
      have hnil : pre' = [] := List.eq_nil_of_length_eq_zero (Nat.le_zero.mp hle)
      simp only [hnil, List.nil_append, List.map_cons, List.map_nil, hx1, hx2, hx3, hx4, hx5,
        hx6] at hrun
      have hlast : easterEggFired L
          (easterEggRun L (easterEggKeydown L st k0) [k1, k2, k3, k4, k5, k6]) k7 = false := by
        cases hl : easterEggFired L
            (easterEggRun L (easterEggKeydown L st k0) [k1, k2, k3, k4, k5, k6]) k7 with
        | false => rfl
        | true =>
          rw [easterEggFired_iff, hrun, hx7] at hl
          exact absurd hl (by decide)
      have htail : easterEggTrace L (easterEggKeydown L st k0) [k1, k2, k3, k4, k5, k6, k7] =
          List.replicate 7 false := by
        have hsplit : [k1, k2, k3, k4, k5, k6, k7] = [k1, k2, k3, k4, k5, k6] ++ [k7] := rfl
        rw [hsplit, easterEggTrace_append, hq]
        simp [easterEggTrace, hlast, List.replicate]
      refine ⟨by rw [hcons, List.tail_cons, htail], fun _ => ⟨rfl, by rw [hx0, hx]⟩, ?_⟩
      intro hempty
      rw [easterEggFired_iff, hempty, hx0] at hf
      exact absurd (congrArg String.data hf) (by
        rw [join_data, join_secretCode]
        simp [pushKey, secretCode])
    | false =>
      have hseq : (easterEggKeydown L st k0).keySequence = pushKey st.keySequence (L k0) := by
        rw [easterEggKeydown_keySequence, hf]
        simp
      obtain ⟨pre1, -, hp1⟩ := pushKey_keeps st.keySequence (L k0) hb st.keySequence [] (by simp)
        (by simp)
      obtain ⟨hq, -⟩ := easterEggTrace_quiet L [k1, k2, k3, k4, k5, k6, k7]
        (easterEggKeydown L st k0) pre1 [L k0] (easterEggKeydown_length L st k0 hb)
        (by rw [hseq, hp1]; simp) (by simp) (by
          intro m hm1 hm2
          simp only [List.length_cons, List.length_nil] at hm2
          interval_cases m <;>
            (simp [List.take_succ_cons, hx0, hx1, hx2, hx3, hx4, hx5, hx6, hx7]
             try (intro h; subst h; exact hp rfl)))
      refine ⟨by rw [hcons, List.tail_cons, hq]; rfl, ?_, fun _ => by rw [hcons, hf, hq]; rfl⟩
      rw [hcons, hf]
      simp
  all_goals
    simp at hp e0 e1 e2 e3 e4 e5 e6 e7
    try rw [e0] at hx0
    try rw [e1] at hx1
    try rw [e2] at hx2
    try rw [e3] at hx3
    try rw [e4] at hx4
    try rw [e5] at hx5
    try rw [e6] at hx6
    try rw [e7] at hx7
    obtain ⟨hq, -⟩ := easterEggTrace_quiet L [k0, k1, k2, k3, k4, k5, k6, k7] st
      st.keySequence [] hb (by simp) (by simp) (by
        intro m hm1 hm2
        simp only [List.length_cons, List.length_nil] at hm2
        interval_cases m <;>
          (simp [List.take_succ_cons, hx0, hx1, hx2, hx3, hx4, hx5, hx6, hx7]
           try (intro h; subst h; exact hp rfl)))
    exact ⟨by rw [hq]; rfl, by rw [hq]; simp, fun _ => hq⟩

/-- C8 (amended): from any state reached from the empty key buffer, pressing
eight keys whose lower-cased identifiers are single characters and differ from
`creative` at exactly one position `p` never calls `triggerEasterEgg` on the
second to eighth keypress; a call on the first keypress requires the altered
key to be the first one and to lower-case to `e`; and from an empty key buffer
none of the eight keypresses calls it. -/
theorem easterEgg_altered_quiet (L : String → String) (heroTitle : Option String) (ui : Screen)
    (typed keys : List String) (p : Nat)
    (hlen : keys.length = 8)
    (hsingle : ∀ k ∈ keys, (L k).length = 1)
    (hp : (keys.map L)[p]? ≠ secretCode[p]?)
    (hrest : ∀ i, i ≠ p → (keys.map L)[i]? = secretCode[i]?) :
    (easterEggTrace L (easterEggRun L (eggInit heroTitle ui) typed) keys).tail =
      List.replicate 7 false ∧
    ((easterEggTrace L (easterEggRun L (eggInit heroTitle ui) typed) keys).head? = some true →
      p = 0 ∧ (keys.map L)[0]? = some "e") ∧
    ((easterEggRun L (eggInit heroTitle ui) typed).keySequence = [] →
      easterEggTrace L (easterEggRun L (eggInit heroTitle ui) typed) keys =
        List.replicate 8 false) := by
  have hb : (easterEggRun L (eggInit heroTitle ui) typed).keySequence.length ≤ 8 :=
    easterEggRun_length L _ typed (by simp [eggInit])
  obtain ⟨k0, k1, k2, k3, k4, k5, k6, k7, rfl⟩ := length_eq_eight keys hlen
  obtain ⟨h1, h2, h3⟩ := easterEgg_altered_aux L _ hb k0 k1 k2 k3 k4 k5 k6 k7 p hsingle hp hrest
  refine ⟨h1, fun h => ?_, h3⟩
  obtain ⟨hp0, he⟩ := h2 h
  exact ⟨hp0, by simp [he]⟩

/-- The statement of C8 (amended) for the keys `c r e a t i v a`, typed after
`x` and typed first. -/
theorem easterEgg_altered_quiet_witness :
    (easterEggTrace asciiToLowerCase (easterEggRun asciiToLowerCase (eggInit none ⟨[], [], 0⟩) ["x"])
        ["c", "r", "e", "a", "t", "i", "v", "a"]).tail = List.replicate 7 false ∧
    easterEggTrace asciiToLowerCase (easterEggRun asciiToLowerCase (eggInit none ⟨[], [], 0⟩) [])
        ["c", "r", "e", "a", "t", "i", "v", "a"] = List.replicate 8 false := by
  have hrest : ∀ i, i ≠ 7 →
      (["c", "r", "e", "a", "t", "i", "v", "a"].map asciiToLowerCase)[i]? = secretCode[i]? := by
    intro i hi
    rcases i with _ | _ | _ | _ | _ | _ | _ | _ | i
    all_goals first
      | exact absurd rfl hi
      | decide
      | simp [secretCode]
  exact ⟨(easterEgg_altered_quiet asciiToLowerCase none ⟨[], [], 0⟩ ["x"]
      ["c", "r", "e", "a", "t", "i", "v", "a"] 7 rfl (by decide) (by decide) hrest).1,
    (easterEgg_altered_quiet asciiToLowerCase none ⟨[], [], 0⟩ []
      ["c", "r", "e", "a", "t", "i", "v", "a"] 7 rfl (by decide) (by decide) hrest).2.2 rfl⟩

/-! ## Page initialisation -/

/-- C9: without an `IntersectionObserver` in the environment,
`initializeScrollAnimations` raises a `ReferenceError` instead of completing,
and the `DOMContentLoaded` listener ends there, after `initializeNavigation`
and before the five remaining initialisers; the guarded sibling
`initializeLazyLoading` does complete as a no-op in the same environment, and
with an observer all seven initialisers run. -/
theorem domContentLoaded_without_observer (page : Page) :
    initializeScrollAnimations ⟨false⟩ page =
      .error (.referenceError "IntersectionObserver is not defined") ∧
    domContentLoaded ⟨false⟩ page =
      .error (.referenceError "IntersectionObserver is not defined") ∧
    initializeLazyLoading ⟨false⟩ page = .ok page ∧
    (∃ page', domContentLoaded ⟨true⟩ page = .ok page' ∧
      page'.installed = page.installed ++
        [.navigation, .scrollAnimations, .parallax, .portfolioFilters, .formSubmission,
          .smoothScroll, .buttonAnimations]) := by
  refine ⟨rfl, rfl, rfl, ?_⟩
  refine ⟨_, rfl, ?_⟩
  simp

/-! ## Lightbox -/

theorem SameDoc.refl (p : LightboxPage) : p.SameDoc p := ⟨rfl, rfl, rfl⟩

theorem SameDoc.trans {p q r : LightboxPage} (h1 : p.SameDoc q) (h2 : q.SameDoc r) :
    p.SameDoc r :=
  ⟨h2.1.trans h1.1, h2.2.1.trans h1.2.1, h2.2.2.trans h1.2.2⟩

theorem openLightbox_sameDoc (p : LightboxPage) : p.SameDoc (openLightbox p) := by
  unfold openLightbox LightboxPage.SameDoc
  cases h : p.lightbox <;> simp [h]

theorem closeLightbox_sameDoc (p : LightboxPage) : p.SameDoc (closeLightbox p) := by
  unfold closeLightbox LightboxPage.SameDoc
  cases h : p.lightbox <;> simp [h]

theorem backdropListener_sameDoc (t : Elem) (p : LightboxPage) :
    p.SameDoc (backdropListener t p) := by
  unfold backdropListener
  split
  · exact closeLightbox_sameDoc p
  · exact SameDoc.refl p

theorem closeLightbox_closeLightbox (p : LightboxPage) :
    closeLightbox (closeLightbox p) = closeLightbox p := by
  unfold closeLightbox
  cases h : p.lightbox with
  | none => simp [h]
  | some lb => simp [classListRemove_idem]

theorem backdropListener_idem (t : Elem) (p : LightboxPage) :
    backdropListener t (backdropListener t p) = backdropListener t p := by
  by_cases h : (p.lightbox == some t) = true
  · have h2 : ((closeLightbox p).lightbox == some t) = true := by
      rw [(closeLightbox_sameDoc p).1]
      exact h
    simp only [backdropListener, h, h2, if_true, closeLightbox_closeLightbox]
  · simp only [backdropListener, h, if_false]
    simp [h]

theorem iterate_backdropListener (t : Elem) (n : Nat) (p : LightboxPage) :
    Nat.iterate (backdropListener t) n p = if n = 0 then p else backdropListener t p := by
  induction n generalizing p with
  | zero => rfl
  | succ n ih =>
    rw [Function.iterate_succ_apply, ih]
    by_cases hn : n = 0
    · simp [hn]
    · simp [hn, backdropListener_idem]

theorem openLightbox_isOpen (p : LightboxPage) (lb : Elem) (h : p.lightbox = some lb) :
    (openLightbox p).isOpen = true := by
  simp [openLightbox, h, LightboxPage.isOpen, classListContains_add]

theorem openLightbox_keeps_open (p : LightboxPage) (h : p.isOpen = true) :
    (openLightbox p).isOpen = true := by
  unfold openLightbox
  cases hl : p.lightbox with
  | none => simpa using h
  | some lb => simp [LightboxPage.isOpen, classListContains_add]

theorem closeLightbox_isOpen (p : LightboxPage) (lb : Elem) (h : p.lightbox = some lb) :
    (closeLightbox p).isOpen = false := by
  simp [closeLightbox, h, LightboxPage.isOpen, classListContains_remove]

theorem closeLightbox_keeps_closed (p : LightboxPage) (h : p.isOpen = false) :
    (closeLightbox p).isOpen = false := by
  unfold closeLightbox
  cases hl : p.lightbox with
  | none => simpa using h
  | some lb => simp [LightboxPage.isOpen, classListContains_remove]

theorem backdropListener_keeps_closed (t : Elem) (p : LightboxPage) (h : p.isOpen = false) :
    (backdropListener t p).isOpen = false := by
  unfold backdropListener
  split
  · exact closeLightbox_keeps_closed p h
  · exact h

theorem openLightbox_wired (p : LightboxPage) (h : p.Wired) : (openLightbox p).Wired := by
  unfold openLightbox
  cases hl : p.lightbox with
  | none => simpa using h
  | some lb =>
    intro _
    refine ⟨Nat.succ_pos _, ?_⟩
    intro hc
    simp only [Bool.or_eq_true]
    exact Or.inr hc

theorem closeLightbox_wired (p : LightboxPage) (h : p.Wired) : (closeLightbox p).Wired := by
  cases hl : p.lightbox with
  | none =>
    have : closeLightbox p = p := by simp [closeLightbox, hl]
    rw [this]
    exact h
  | some lb =>
    intro ho
    rw [closeLightbox_isOpen p lb hl] at ho
    exact absurd ho (by simp)

theorem backdropListener_wired (t : Elem) (p : LightboxPage) (h : p.Wired) :
    (backdropListener t p).Wired := by
  unfold backdropListener
  split
  · exact closeLightbox_wired p h
  · exact h

/-- The listeners of one element, with the local names of `clickAt` unfolded. -/
theorem clickAt_def (t : Elem) (p : LightboxPage) (e : Elem) :
    clickAt t p e =
      Nat.iterate (backdropListener t)
        (if p.lightbox == some e then p.backdropListeners else 0)
        (if (p.closeBtnListener && p.closeBtn == some e) = true then
          closeLightbox (if decide (e ∈ p.portfolioItems) = true then openLightbox p else p)
        else if decide (e ∈ p.portfolioItems) = true then openLightbox p else p) := rfl

theorem iterate_preserves (P : LightboxPage → Prop) (f : LightboxPage → LightboxPage)
    (hf : ∀ p, P p → P (f p)) (n : Nat) (p : LightboxPage) (hp : P p) :
    P (Nat.iterate f n p) := by
  induction n generalizing p with
  | zero => exact hp
  | succ n ih =>
    rw [Function.iterate_succ_apply]
    exact ih _ (hf p hp)

theorem clickAt_preserves (P : LightboxPage → Prop)
    (hopen : ∀ p, P p → P (openLightbox p)) (hclose : ∀ p, P p → P (closeLightbox p))
    (t : Elem) (p : LightboxPage) (e : Elem) (hp : P p) : P (clickAt t p e) := by
  rw [clickAt_def]
  apply iterate_preserves P
  · intro q hq
    unfold backdropListener
    split
    · exact hclose q hq
    · exact hq
  · split
    · apply hclose
      split
      · exact hopen p hp
      · exact hp
    · split
      · exact hopen p hp
      · exact hp

theorem clickAt_sameDoc (t : Elem) (p : LightboxPage) (e : Elem) :
    p.SameDoc (clickAt t p e) :=
  clickAt_preserves (fun q => p.SameDoc q)
    (fun q hq => SameDoc.trans hq (openLightbox_sameDoc q))
    (fun q hq => SameDoc.trans hq (closeLightbox_sameDoc q)) t p e (SameDoc.refl p)

theorem clickAt_wired (t : Elem) (p : LightboxPage) (e : Elem) (h : p.Wired) :
    (clickAt t p e).Wired :=
  clickAt_preserves LightboxPage.Wired openLightbox_wired closeLightbox_wired t p e h

/-- Without a closing listener on the way, an element leaves the lightbox open
and opens it when it is a portfolio item. -/
theorem clickAt_no_closer (t : Elem) (p : LightboxPage) (e lb : Elem)
    (hlb : p.lightbox = some lb) (ht : t ≠ lb) (hc : p.closeBtn ≠ some e) :
    (clickAt t p e).isOpen = (p.isOpen || decide (e ∈ p.portfolioItems)) := by
  have hc' : (p.closeBtnListener && p.closeBtn == some e) = false := by
    simp [hc]
  have hback : ∀ q : LightboxPage, p.SameDoc q → backdropListener t q = q := by
    intro q hq
    have : (q.lightbox == some t) = false := by
      rw [hq.1, hlb]
      simpa using fun h : lb = t => ht h.symm
    simp [backdropListener, this]
  rw [clickAt_def, iterate_backdropListener, hc']
  simp only [Bool.false_eq_true, if_false]
  by_cases hi : e ∈ p.portfolioItems
  · simp only [hi, decide_True, if_true, Bool.or_true]
    rw [hback _ (openLightbox_sameDoc p)]
    simp [openLightbox_isOpen p lb hlb]
  · simp only [hi, decide_False, Bool.false_eq_true, if_false, Bool.or_false]
    rw [hback _ (SameDoc.refl p)]
    simp

/-- An element that is not a portfolio item leaves a closed lightbox closed. -/
theorem clickAt_no_opener (t : Elem) (p : LightboxPage) (e : Elem)
    (hi : e ∉ p.portfolioItems) (h : p.isOpen = false) : (clickAt t p e).isOpen = false := by
  rw [clickAt_def]
  simp only [hi, decide_False, Bool.false_eq_true, if_false]
  apply iterate_preserves (fun q => q.isOpen = false)
  · exact fun q hq => backdropListener_keeps_closed t q hq
  · split
    · exact closeLightbox_keeps_closed p h
    · exact h

/-- The target of a click on the backdrop or on the close control closes the
lightbox. -/
theorem clickAt_target_closes (t : Elem) (p : LightboxPage) (lb : Elem)
    (hlb : p.lightbox = some lb) (hw : p.Wired) (ht : t = lb ∨ p.closeBtn = some t)
    (hi : t ∉ p.portfolioItems) : (clickAt t p t).isOpen = false := by
  cases ho : p.isOpen with
  | false => exact clickAt_no_opener t p t hi ho
  | true =>
    obtain ⟨hn, hcl⟩ := hw ho
    rw [clickAt_def, iterate_backdropListener]
    simp only [hi, decide_False, Bool.false_eq_true, if_false]
    rcases ht with ht | ht
    · subst ht
      have hn' : ¬ p.backdropListeners = 0 := by omega
      simp only [hlb, beq_self_eq_true, if_true, hn', if_false]
      unfold backdropListener
      have hr : ∀ q : LightboxPage, p.SameDoc q → (closeLightbox q).isOpen = false :=
        fun q hq => closeLightbox_isOpen q t (hq.1.trans hlb)
      split
      · rw [if_pos (by rw [(closeLightbox_sameDoc p).1, hlb]; simp)]
        exact hr _ (closeLightbox_sameDoc p)
      · rw [if_pos (by rw [hlb]; simp)]
        exact hr _ (SameDoc.refl p)
    · have hl : p.closeBtnListener = true := hcl (by simp [ht])
      simp only [hl, ht, beq_self_eq_true, Bool.and_self, if_true]
      have hclosed : (closeLightbox p).isOpen = false := closeLightbox_isOpen p lb hlb
      generalize (if (p.lightbox == some t) = true then p.backdropListeners else 0) = n
      by_cases hn0 : n = 0
      · rw [if_pos hn0]
        exact hclosed
      · rw [if_neg hn0]
        exact backdropListener_keeps_closed t _ hclosed

theorem foldl_clickAt_sameDoc (t : Elem) (path : List Elem) (p : LightboxPage) :
    p.SameDoc (path.foldl (clickAt t) p) := by
  induction path generalizing p with
  | nil => exact SameDoc.refl p
  | cons e path ih => exact SameDoc.trans (clickAt_sameDoc t p e) (ih _)

theorem foldl_clickAt_wired (t : Elem) (path : List Elem) (p : LightboxPage) (h : p.Wired) :
    (path.foldl (clickAt t) p).Wired := by
  induction path generalizing p with
  | nil => exact h
  | cons e path ih => exact ih _ (clickAt_wired t p e h)

theorem lightboxStep_sameDoc (p : LightboxPage) (ev : LightboxEvent) :
    p.SameDoc (lightboxStep p ev) := by
  cases ev with
  | keydown key =>
    simp only [lightboxStep, lightboxKeydown]
    split
    · exact closeLightbox_sameDoc p
    · exact SameDoc.refl p
  | click path =>
    cases path with
    | nil => exact SameDoc.refl p
    | cons t rest => exact foldl_clickAt_sameDoc t (t :: rest) p

theorem lightboxStep_wired (p : LightboxPage) (ev : LightboxEvent) (h : p.Wired) :
    (lightboxStep p ev).Wired := by
  cases ev with
  | keydown key =>
    simp only [lightboxStep, lightboxKeydown]
    split
    · exact closeLightbox_wired p h
    · exact h
  | click path =>
    cases path with
    | nil => exact h
    | cons t rest => exact foldl_clickAt_wired t (t :: rest) p h

theorem lightboxRun_sameDoc (p : LightboxPage) (events : List LightboxEvent) :
    p.SameDoc (lightboxRun p events) := by
  induction events generalizing p with
  | nil => exact SameDoc.refl p
  | cons ev events ih => exact SameDoc.trans (lightboxStep_sameDoc p ev) (ih _)

theorem lightboxRun_wired (p : LightboxPage) (events : List LightboxEvent) (h : p.Wired) :
    (lightboxRun p events).Wired := by
  induction events generalizing p with
  | nil => exact h
  | cons ev events ih => exact ih _ (lightboxStep_wired p ev h)

theorem foldl_clickAt_no_closer (t lb : Elem) (path : List Elem) :
    ∀ p : LightboxPage, p.lightbox = some lb → t ≠ lb → (∀ c, p.closeBtn = some c → c ∉ path) →
      (path.foldl (clickAt t) p).isOpen =
        (p.isOpen || path.any fun e => decide (e ∈ p.portfolioItems)) := by
  induction path with
  | nil => intro p _ _ _; simp
  | cons e path ih =>
    intro p hlb ht hc
    have hs := clickAt_sameDoc t p e
    rw [List.foldl_cons, ih (clickAt t p e) (hs.1.trans hlb) ht
      (fun c hcc hmem => hc c (hs.2.1 ▸ hcc) (List.mem_cons_of_mem _ hmem)),
      clickAt_no_closer t p e lb hlb ht (fun h => hc e h (List.mem_cons_self _ _)), hs.2.2]
    simp [Bool.or_assoc]

theorem foldl_clickAt_no_opener (t : Elem) (path : List Elem) :
    ∀ p : LightboxPage, (∀ e ∈ path, e ∉ p.portfolioItems) → p.isOpen = false →
      (path.foldl (clickAt t) p).isOpen = false := by
  induction path with
  | nil => intro p _ h; exact h
  | cons e path ih =>
    intro p hi h
    have hs := clickAt_sameDoc t p e
    rw [List.foldl_cons]
    exact ih _ (fun x hx => hs.2.2 ▸ hi x (List.mem_cons_of_mem _ hx))
      (clickAt_no_opener t p e (hi e (List.mem_cons_self _ _)) h)

/-- C10 fails as stated: with the lightbox open, a click on an element inside
the close control (element `3` inside close control `1` inside lightbox `0`)
has a target that is neither the lightbox nor the close control, and it
closes the lightbox, because the click bubbles to the close control. -/
theorem lightbox_click_inside_close_control :
    (lightboxRun (lightboxLoaded (some 0) (some 1) [2] []) [.click [2, 9]]).isOpen = true ∧
    (3 : Elem) ≠ 0 ∧ (3 : Elem) ≠ 1 ∧ (0 : Elem) ∈ [3, 1, 0, 9] ∧
    (lightboxClick (lightboxRun (lightboxLoaded (some 0) (some 1) [2] []) [.click [2, 9]])
      [3, 1, 0, 9]).isOpen = false := by
  decide

/-- C10 (amended): in every state `st` reached from a page loaded with the
lightbox `lb` closed, an Escape keydown leaves the lightbox closed; while it
is open, a click whose target is not the lightbox and whose path does not
hold the close control leaves it open; a click whose target is the lightbox
or the close control, with no portfolio item on its path, leaves it closed;
and a click with a portfolio item on its path, whose target is not the
lightbox and whose path does not hold the close control, leaves it open. -/
theorem lightbox_transitions (lb : Elem) (closeBtn : Option Elem) (items : List Elem)
    (classes : List String) (events : List LightboxEvent) (st : LightboxPage)
    (hclosed : "active" ∉ classes)
    (hst : st = lightboxRun (lightboxLoaded (some lb) closeBtn items classes) events) :
    (lightboxKeydown st "Escape").isOpen = false ∧
    (∀ target rest, st.isOpen = true → target ≠ lb →
      (∀ c, closeBtn = some c → c ∉ target :: rest) →
      (lightboxClick st (target :: rest)).isOpen = true) ∧
    (∀ target rest, (target = lb ∨ closeBtn = some target) →
      (∀ e ∈ target :: rest, e ∉ items) →
      (lightboxClick st (target :: rest)).isOpen = false) ∧
    (∀ target rest, (∃ e ∈ target :: rest, e ∈ items) → target ≠ lb →
      (∀ c, closeBtn = some c → c ∉ target :: rest) →
      (lightboxClick st (target :: rest)).isOpen = true) := by
  have hdoc : (lightboxLoaded (some lb) closeBtn items classes).SameDoc st :=
    hst ▸ lightboxRun_sameDoc _ events
  have hw : st.Wired := by
    rw [hst]
    apply lightboxRun_wired
    intro ho
    simp [lightboxLoaded, LightboxPage.isOpen, classListContains, hclosed] at ho
  have hlb : st.lightbox = some lb := hdoc.1
  have hcb : st.closeBtn = closeBtn := hdoc.2.1
  have hit : st.portfolioItems = items := hdoc.2.2
  refine ⟨?_, ?_, ?_, ?_⟩
  · simp only [lightboxKeydown, beq_self_eq_true, if_true]
    exact closeLightbox_isOpen st lb hlb
  · intro target rest ho ht hc
    simp only [lightboxClick]
    rw [foldl_clickAt_no_closer target lb _ st hlb ht (fun c h => hc c (hcb ▸ h)), ho]
    rfl
  · intro target rest ht hi
    simp only [lightboxClick, List.foldl_cons]
    have hs := clickAt_sameDoc target st target
    apply foldl_clickAt_no_opener
    · intro e he
      rw [hs.2.2, hit]
      exact hi e (List.mem_cons_of_mem _ he)
    · apply clickAt_target_closes target st lb hlb hw
      · rcases ht with h | h
        · exact Or.inl h
        · exact Or.inr (hcb.trans h)
      · rw [hit]
        exact hi target (List.mem_cons_self _ _)
  · intro target rest ⟨e, he, hei⟩ ht hc
    simp only [lightboxClick]
    rw [foldl_clickAt_no_closer target lb _ st hlb ht (fun c h => hc c (hcb ▸ h))]
    have : (target :: rest).any (fun e => decide (e ∈ st.portfolioItems)) = true := by
      rw [List.any_eq_true]
      exact ⟨e, he, by simpa [hit] using hei⟩
    rw [this]
    simp

/-- The statement of C10 (amended) on a page with lightbox `0`, close control
`1` and portfolio item `2`, after the item was clicked: a click on content `4`
keeps the lightbox open, a click on the backdrop closes it. -/
theorem lightbox_transitions_witness :
    (lightboxRun (lightboxLoaded (some 0) (some 1) [2] []) [.click [2, 9]]).isOpen = true ∧
    (lightboxClick (lightboxRun (lightboxLoaded (some 0) (some 1) [2] []) [.click [2, 9]])
      [4, 0, 9]).isOpen = true ∧
    (lightboxClick (lightboxRun (lightboxLoaded (some 0) (some 1) [2] []) [.click [2, 9]])
      [0, 9]).isOpen = false :=
  ⟨by decide,
    (lightbox_transitions 0 (some 1) [2] [] [.click [2, 9]] _ (by simp) rfl).2.1 4 [0, 9]
      (by decide) (by decide) (by decide),
    (lightbox_transitions 0 (some 1) [2] [] [.click [2, 9]] _ (by simp) rfl).2.2.1 0 [9]
      (Or.inl rfl) (by decide)⟩

/-! ## Reveal tracker -/

theorem reveal_reveal (element : RevealTarget) : element.reveal.reveal = element.reveal := by
  simp [RevealTarget.reveal, classListAdd_idem]

theorem revealEntry_getElem? (page : Page) (entry : ObserverEntry) (k : Nat) :
    (revealEntry page entry).revealTargets[k]? =
      (page.revealTargets[k]?).map fun element =>
        if (entry.isIntersecting && entry.target == k) = true then element.reveal else element := by
  unfold revealEntry
  by_cases hi : entry.isIntersecting = true
  · simp only [hi, if_true, Bool.true_and, List.getElem?_modify, beq_iff_eq]
    rfl
  · simp only [hi, Bool.false_eq_true, if_false]
    simp only [Bool.not_eq_true] at hi
    simp [hi]

theorem observerCallback_getElem? (entries : List ObserverEntry) (page : Page) (k : Nat) :
    (observerCallback page entries).revealTargets[k]? =
      (page.revealTargets[k]?).map fun element =>
        if (entries.any fun entry => entry.isIntersecting && entry.target == k) = true then
          element.reveal
        else element := by
  induction entries generalizing page with
  | nil => simp [observerCallback]
  | cons entry entries ih =>
    have h := ih (revealEntry page entry)
    simp only [observerCallback, List.foldl_cons] at h ⊢
    rw [h, revealEntry_getElem?]
    cases page.revealTargets[k]? with
    | none => rfl
    | some element =>
      by_cases h1 : (entry.isIntersecting && entry.target == k) = true <;>
      by_cases h2 : (entries.any fun entry => entry.isIntersecting && entry.target == k) = true <;>
      simp [h1, h2, reveal_reveal]

theorem observerRun_getElem? (callbacks : List (List ObserverEntry)) (page : Page) (k : Nat) :
    (observerRun page callbacks).revealTargets[k]? =
      (page.revealTargets[k]?).map fun element =>
        if intersected k callbacks = true then element.reveal else element := by
  induction callbacks generalizing page with
  | nil => simp [observerRun, intersected]
  | cons entries callbacks ih =>
    have h := ih (observerCallback page entries)
    simp only [observerRun, List.foldl_cons] at h ⊢
    rw [h, observerCallback_getElem?]
    cases page.revealTargets[k]? with
    | none => rfl
    | some element =>
      by_cases h1 : (entries.any fun entry => entry.isIntersecting && entry.target == k) = true <;>
      by_cases h2 : intersected k callbacks = true <;>
      simp [intersected, h1, h2, reveal_reveal]

/-- C11: for an element `k` of the observed elements and a sequence of
observer callbacks in which `entries` is the first batch reporting `k` as
intersecting, the element is untouched before that batch, carries `active`
and is unobserved right after it, and stays exactly so after any further
callbacks `later`, intersecting or not; when `active` was absent at first it
occurs exactly once afterwards. -/
theorem reveal_once (page : Page) (k : Nat) (element : RevealTarget)
    (earlier : List (List ObserverEntry)) (entries : List ObserverEntry)
    (later : List (List ObserverEntry))
    (hk : page.revealTargets[k]? = some element)
    (hearlier : intersected k earlier = false)
    (hfirst : (entries.any fun entry => entry.isIntersecting && entry.target == k) = true) :
    (observerRun page earlier).revealTargets[k]? = some element ∧
    (observerRun page (earlier ++ [entries])).revealTargets[k]? =
      some ⟨classListAdd element.classList "active", false⟩ ∧
    (observerRun page (earlier ++ entries :: later)).revealTargets[k]? =
      some ⟨classListAdd element.classList "active", false⟩ ∧
    RevealTarget.revealed ⟨classListAdd element.classList "active", false⟩ = true ∧
    (element.revealed = false →
      classListAdd element.classList "active" = element.classList ++ ["active"] ∧
      (classListAdd element.classList "active").count "active" = 1) := by
  have hhit : ∀ rest, intersected k (earlier ++ entries :: rest) = true := by
    intro rest
    simp only [intersected, List.any_append, List.any_cons, Bool.or_eq_true]
    exact Or.inr (Or.inl hfirst)
  refine ⟨?_, ?_, ?_, ?_, ?_⟩
  · rw [observerRun_getElem?, hk, hearlier]
    rfl
  · rw [observerRun_getElem?, hk, hhit []]
    rfl
  · rw [observerRun_getElem?, hk, hhit later]
    rfl
  · exact classListContains_add _ _
  · intro habs
    have hmem : "active" ∉ element.classList := by
      simpa [RevealTarget.revealed, classListContains] using habs
    have hadd : classListAdd element.classList "active" = element.classList ++ ["active"] := by
      simp [classListAdd, hmem]
    refine ⟨hadd, ?_⟩
    rw [hadd, List.count_append, List.count_eq_zero.mpr hmem]
    rfl

/-- The statement of C11 on a page with one observed portfolio item: the item
leaves, enters, leaves and enters the viewport again. -/
theorem reveal_once_witness :
    (observerRun ⟨[⟨["portfolio-item", "reveal"], true⟩], []⟩
        [[⟨0, false⟩]]).revealTargets[0]? = some ⟨["portfolio-item", "reveal"], true⟩ ∧
    (observerRun ⟨[⟨["portfolio-item", "reveal"], true⟩], []⟩
        ([[⟨0, false⟩]] ++ [⟨0, true⟩] :: [[⟨0, false⟩], [⟨0, true⟩]])).revealTargets[0]? =
      some ⟨["portfolio-item", "reveal", "active"], false⟩ :=
  ⟨(reveal_once ⟨[⟨["portfolio-item", "reveal"], true⟩], []⟩ 0 ⟨["portfolio-item", "reveal"], true⟩
      [[⟨0, false⟩]] [⟨0, true⟩] [[⟨0, false⟩], [⟨0, true⟩]] rfl (by decide) (by decide)).1,
    (reveal_once ⟨[⟨["portfolio-item", "reveal"], true⟩], []⟩ 0 ⟨["portfolio-item", "reveal"], true⟩
      [[⟨0, false⟩]] [⟨0, true⟩] [[⟨0, false⟩], [⟨0, true⟩]] rfl (by decide) (by decide)).2.2.1⟩

/-! ## Navigation -/

/-- C12: with a `.hamburger` and no `.nav-menu`, the hamburger click listener
toggles the hamburger and then ends with a `TypeError`, whatever the classes
of the hamburger; in the three other combinations it does not throw, and the
nav-link listener, the document listener on a click whose target is an
element, and `initializeNavigation` itself never throw; the document listener
throws on a click whose target has no `closest` method. -/
theorem hamburgerClick_without_navMenu :
    hamburgerClick ⟨some [], none⟩ =
      ⟨⟨some ["active"], none⟩,
        some (.typeError "Cannot read properties of null (reading 'classList')")⟩ ∧
    (∀ hamburger, (hamburgerClick ⟨some hamburger, none⟩).thrown =
      some (.typeError "Cannot read properties of null (reading 'classList')")) ∧
    (∀ hamburger navMenu, (hamburgerClick ⟨some hamburger, some navMenu⟩).thrown = none) ∧
    (∀ navMenu, (hamburgerClick ⟨none, navMenu⟩).thrown = none) ∧
    (∀ page, (navLinkClick page).thrown = none) ∧
    (∀ page isClickInsideNav,
      (documentClick page (.element isClickInsideNav)).thrown = none) ∧
    (∀ page : Page, ∃ page', initializeNavigation page = .ok page') ∧
    (∀ page, (documentClick page .other).thrown =
      some (.typeError "event.target.closest is not a function")) := by
  refine ⟨by decide, fun _ => rfl, fun _ _ => rfl, fun _ => rfl, fun _ => rfl, ?_,
    fun page => ⟨_, rfl⟩, fun _ => rfl⟩
  intro page isClickInsideNav
  unfold documentClick
  simp only
  split <;> rfl

end Portfolio
